import Mathlib

/-!
# protoc-gen-markdown: a shallow embedding of `generator.go`

Go strings are modelled as Lean `String`s.  The only byte-level operations the
source performs (`field.Type[0] == '.'`, `field.Type[1:]`, `strings.Trim(js, " ")`,
`strings.Split(doc, "\n")`) look for ASCII bytes, so they act on characters the
same way they act on bytes.

Go maps are modelled as finite lookups `String → Option α`; a panic of the Go
runtime is an explicit `Fault`.
-/

namespace ProtocGenMarkdown

/-! ## Go runtime and library helpers -/

/-- Ways in which the Go code can fail to return. -/
inductive Fault where
  /-- Index expression on an empty string (`field.Type[0]`). -/
  | indexOutOfRange
  /-- Field selection through a nil pointer (`m.Name` with `m == nil`). -/
  | nilDereference
  /-- The recursion budget of the model is exhausted. -/
  | outOfFuel
  deriving DecidableEq, Repr

deriving instance DecidableEq for Except

/-- Go map: lookup by key, absent keys give `none`. -/
abbrev GoMap (α : Type) := String → Option α

/-- The empty Go map. -/
def GoMap.empty {α : Type} : GoMap α := fun _ => none

/-- Map assignment, `m[k] = v`. -/
def GoMap.set {α : Type} (m : GoMap α) (k : String) (v : α) : GoMap α :=
  fun k' => if k' = k then some v else m k'

/-- Go `strings.Trim(s, " ")`: strips the spaces at both ends. -/
def trimSpaces (s : String) : String :=
  ⟨((s.data.dropWhile (fun c => c == ' ')).reverse.dropWhile (fun c => c == ' ')).reverse⟩

/-- Splitting a character list at every newline; the result is never empty. -/
def splitLinesAux : List Char → List Char → List String
  | [], cur => [⟨cur.reverse⟩]
  | c :: cs, cur =>
    if c = '\n' then ⟨cur.reverse⟩ :: splitLinesAux cs [] else splitLinesAux cs (c :: cur)

/-- Go `strings.Split(s, "\n")`. -/
def splitLines (s : String) : List String := splitLinesAux s.data []

/-- Go `strings.Join(parts, sep)`. -/
def joinWith (sep : String) : List String → String
  | [] => ""
  | [p] => p
  | p :: q :: ps => p ++ sep ++ joinWith sep (q :: ps)

/-! ## Data model of `generator.go` -/

/-- The values of `descriptor.FieldDescriptorProto_Label`; `zero` is the Go zero
value, which names no label. -/
inductive FieldDescriptorProto_Label where
  | zero
  | LABEL_OPTIONAL
  | LABEL_REQUIRED
  | LABEL_REPEATED
  deriving DecidableEq, Repr

/-- Go `type field struct`; `Type_` is the Go field `Type`. -/
structure field where
  Name : String
  Type_ : String
  KeyType : String
  Note : String
  Doc : String
  Label : FieldDescriptorProto_Label
  deriving DecidableEq, Repr

/-- Go `func (f field) isRepeated() bool`. -/
def field.isRepeated (f : field) : Bool := f.Label == FieldDescriptorProto_Label.LABEL_REPEATED

/-- Go `type message struct`. -/
structure message where
  Name : String
  Fields : List field
  Label : FieldDescriptorProto_Label
  Doc : String
  deriving DecidableEq, Repr

/-- Go `type api struct`; `Request` and `Reply` are pointers that may be nil. -/
structure api where
  FullName : String
  Method : String
  Path : String
  Doc : String
  Request : Option message
  Reply : Option message
  Input : String
  Output : String
  deriving DecidableEq, Repr

/-- Go `type commandLineParams struct` (`command_line.go`). -/
structure commandLineParams where
  pathPrefix : String
  importMap : GoMap String

/-- An enum value as `protokit` hands it over: name, number, trailing comment. -/
structure EnumValueDescriptor where
  Name : String
  Number : Int
  Trailing : String
  deriving DecidableEq, Repr

/-- The part of `protokit.EnumDescriptor` that `generator.go` reads. -/
structure EnumDescriptor where
  FullName : String
  Values : List EnumValueDescriptor
  deriving DecidableEq, Repr

/-- Go `type twirp struct`. -/
structure twirp where
  params : commandLineParams
  output : String
  messages : GoMap message
  enums : GoMap EnumDescriptor
  apis : List api
  comments : String
  name : String

/-! ## Type classifier -/

/-- Go `func getType(t string) string`. -/
def getType (t : String) : String :=
  if t = "TYPE_STRING" then "string"
  else if t = "TYPE_DOUBLE" ∨ t = "TYPE_FLOAT" then "float"
  else if t = "TYPE_BOOL" then "bool"
  else if t = "TYPE_INT64" ∨ t = "TYPE_UINT64" ∨ t = "TYPE_INT32" ∨ t = "TYPE_UINT32" then "int"
  else t

/-- Go `func getTypeValue(t string) string`. -/
def getTypeValue (t : String) : String :=
  if t = "TYPE_STRING" then ""
  else if t = "TYPE_DOUBLE" ∨ t = "TYPE_FLOAT" then "0.0"
  else if t = "TYPE_BOOL" then "false"
  else if t = "TYPE_INT64" ∨ t = "TYPE_UINT64" ∨ t = "TYPE_INT32" ∨ t = "TYPE_UINT32" then "0"
  else ""

/-! ## Example-value renderer -/

/-- The first loop of `generateJsDocForField`: one `// ` comment line per line of
the field's doc, nothing for an empty doc. -/
def docLines (doc : String) : String :=
  if doc ≠ "" then (splitLines doc).foldl (fun js line => js ++ "// " ++ line ++ "\n") "" else ""

/-- The message branch of `generateJsDocForField` (source lines 333-349): `rendered`
is the result of the recursive call `t.generateJsDocForMessage(m)`, which the
source makes before it reads `m.Name`. -/
def messageValue (f : field) (m : Option message) (rendered : Except Fault String) :
    Except Fault String :=
  match rendered with
  | .error e => .error e
  | .ok v =>
    if f.isRepeated then
      match m with
      | none => .error Fault.nilDereference
      | some m =>
        let doc := "// type:<list<" ++ m.Name ++ ">>"
        let doc := if f.Note ≠ "" then " " ++ f.Note else doc
        .ok ("[" ++ doc ++ "\n" ++ v ++ "]")
    else if f.KeyType ≠ "" then
      match m with
      | none => .error Fault.nilDereference
      | some m =>
        let doc := "// type:<map<" ++ getType f.KeyType ++ "," ++ m.Name ++ ">>"
        let doc := if f.Note ≠ "" then " " ++ f.Note else doc
        .ok ("\x7b" ++ doc ++ "\n\"" ++ getTypeValue f.KeyType ++ "\":" ++ v ++ "\x7d")
    else .ok v

/-- The if-chain of `generateJsDocForField` (source lines 276-352): the example
value `v`, the annotation `vt` and the flag `disableDoc`.  `render` stands for the
recursive call `t.generateJsDocForMessage`. -/
def fieldValue (render : Option message → Except Fault String) (t : twirp) (f : field) :
    Except Fault (String × String × Bool) :=
  if f.Type_ = "TYPE_STRING" then
    if f.isRepeated then .ok ("[\"\",\"\"]", "string", false)
    else if f.KeyType ≠ "" then
      .ok ("\x7b\"" ++ getTypeValue f.KeyType ++ "\":\"\"\x7d",
           "map<" ++ getType f.KeyType ++ ",string>", false)
    else .ok ("\"\"", "string", false)
  else if f.Type_ = "TYPE_DOUBLE" ∨ f.Type_ = "TYPE_FLOAT" then
    if f.isRepeated then .ok ("[0.0, 0.0]", "float", false)
    else if f.KeyType ≠ "" then
      .ok ("\x7b\"" ++ getTypeValue f.KeyType ++ "\":0.0\x7d",
           "map<" ++ getType f.KeyType ++ ",float>", false)
    else .ok ("0.0", "float", false)
  else if f.Type_ = "TYPE_BOOL" then
    if f.isRepeated then .ok ("[false, false]", "bool", false)
    else if f.KeyType ≠ "" then
      .ok ("\x7b\"" ++ getTypeValue f.KeyType ++ "\":false\x7d",
           "map<" ++ getType f.KeyType ++ ",bool>", false)
    else .ok ("false", "bool", false)
  else if f.Type_ = "TYPE_INT64" ∨ f.Type_ = "TYPE_UINT64" then
    if f.isRepeated then .ok ("[\"0\", \"0\"]", "string(int64)", false)
    else if f.KeyType ≠ "" then
      .ok ("\x7b\"" ++ getTypeValue f.KeyType ++ "\":\"0\"\x7d",
           "map<" ++ getType f.KeyType ++ ",string(int64)>", false)
    else .ok ("\"0\"", "string(int64)", false)
  else if f.Type_ = "TYPE_INT32" ∨ f.Type_ = "TYPE_UINT32" then
    if f.isRepeated then .ok ("[0, 0]", "int", false)
    else if f.KeyType ≠ "" then
      .ok ("\x7b\"" ++ getTypeValue f.KeyType ++ "\":0\x7d",
           "map<" ++ getType f.KeyType ++ ",int>", false)
    else .ok ("0", "int", false)
  else if f.Type_ = "TYPE_ENUM" then
    if f.isRepeated then .ok ("[\"\", \"\"]", "string(enum)", false)
    else .ok ("\"\"", "string(enum)", false)
  else
    match f.Type_.data with
    | [] => .error Fault.indexOutOfRange
    | c :: rest =>
      if c = '.' then
        let m := t.messages ⟨rest⟩
        match messageValue f m (render m) with
        | .error e => .error e
        | .ok v => .ok (v, "", true)
      else .ok ("UNKNOWN", "", false)

/-- The tail of `generateJsDocForField` (source lines 354-366): the field line is
appended to the doc comment lines, the whole text is trimmed of spaces and a
newline is appended. -/
def fieldLine (f : field) (v vt : String) (disableDoc : Bool) : String :=
  let js := docLines f.Doc
  let js :=
    if disableDoc then js ++ (f.Name ++ ": " ++ v ++ ",")
    else
      let js := js ++ (f.Name ++ ": " ++ v ++ ", // type:<" ++ vt ++ ">")
      if f.Note ≠ "" then js ++ ", " ++ f.Note else js
  trimSpaces js ++ "\n"

/-- Go `generateJsDocForField`, with the recursive call as a parameter. -/
def generateJsDocForFieldWith (render : Option message → Except Fault String) (t : twirp)
    (f : field) : Except Fault String :=
  match fieldValue render t f with
  | .error e => .error e
  | .ok (v, vt, disableDoc) => .ok (fieldLine f v vt disableDoc)

/-- The loop `for _, field := range m.Fields { js += ... }`. -/
def renderFields (renderField : field → Except Fault String) :
    List field → String → Except Fault String
  | [], js => .ok js
  | f :: fs, js =>
    match renderField f with
    | .error e => .error e
    | .ok s => renderFields renderField fs (js ++ s)

/-- The body of `generateJsDocForMessage`, with the recursive call as a parameter. -/
def generateJsDocForMessageWith (render : Option message → Except Fault String) (t : twirp)
    (m : Option message) : Except Fault String :=
  let js := "" ++ "\x7b\n"
  match m with
  | none => .ok (js ++ "\x7d")
  | some m =>
    match renderFields (generateJsDocForFieldWith render t) m.Fields js with
    | .error e => .error e
    | .ok js => .ok (js ++ "\x7d")

/-- Go `func (t *twirp) generateJsDocForMessage(m *message) string`.  The fuel bounds
the depth of nested calls: with fuel `n` the rendering may descend through `n`
message-typed fields. -/
def generateJsDocForMessage : Nat → twirp → Option message → Except Fault String
  | 0, t, m => generateJsDocForMessageWith (fun _ => .error Fault.outOfFuel) t m
  | n + 1, t, m => generateJsDocForMessageWith (generateJsDocForMessage n t) t m

/-- Go `func (t *twirp) generateJsDocForField(field field) string`; the fuel is the
budget of the nested `generateJsDocForMessage` call. -/
def generateJsDocForField (fuel : Nat) (t : twirp) (f : field) : Except Fault String :=
  match fuel with
  | 0 => generateJsDocForFieldWith (fun _ => .error Fault.outOfFuel) t f
  | n + 1 => generateJsDocForFieldWith (generateJsDocForMessage n t) t f

/-! ## Descriptors handed over by `protokit` -/

/-- The values of `descriptor.FieldDescriptorProto_Type`. -/
inductive FieldDescriptorProto_Type where
  | TYPE_DOUBLE | TYPE_FLOAT | TYPE_INT64 | TYPE_UINT64 | TYPE_INT32 | TYPE_FIXED64
  | TYPE_FIXED32 | TYPE_BOOL | TYPE_STRING | TYPE_GROUP | TYPE_MESSAGE | TYPE_BYTES
  | TYPE_UINT32 | TYPE_ENUM | TYPE_SFIXED32 | TYPE_SFIXED64 | TYPE_SINT32 | TYPE_SINT64
  deriving DecidableEq, Repr

/-- Go `func (x FieldDescriptorProto_Type) String() string`: the name of the value. -/
def FieldDescriptorProto_Type.String : FieldDescriptorProto_Type → String
  | .TYPE_DOUBLE => "TYPE_DOUBLE" | .TYPE_FLOAT => "TYPE_FLOAT" | .TYPE_INT64 => "TYPE_INT64"
  | .TYPE_UINT64 => "TYPE_UINT64" | .TYPE_INT32 => "TYPE_INT32" | .TYPE_FIXED64 => "TYPE_FIXED64"
  | .TYPE_FIXED32 => "TYPE_FIXED32" | .TYPE_BOOL => "TYPE_BOOL" | .TYPE_STRING => "TYPE_STRING"
  | .TYPE_GROUP => "TYPE_GROUP" | .TYPE_MESSAGE => "TYPE_MESSAGE" | .TYPE_BYTES => "TYPE_BYTES"
  | .TYPE_UINT32 => "TYPE_UINT32" | .TYPE_ENUM => "TYPE_ENUM" | .TYPE_SFIXED32 => "TYPE_SFIXED32"
  | .TYPE_SFIXED64 => "TYPE_SFIXED64" | .TYPE_SINT32 => "TYPE_SINT32"
  | .TYPE_SINT64 => "TYPE_SINT64"

/-- The part of a field descriptor that `scanMessage` reads: `GetName`, `GetTypeName`,
`GetType`, `GetLabel` and the leading and trailing comment. -/
structure FieldDescriptor where
  Name : String
  TypeName : String
  Type_ : FieldDescriptorProto_Type
  Label : FieldDescriptorProto_Label
  Leading : String
  Trailing : String
  deriving DecidableEq, Repr

/-- The part of `protokit.Descriptor` that `scanMessage` reads.  `Messages` are the
nested types in declaration order; the raw view `md.NestedType` of the source is the
same list, each nested type with its name, its `MapEntry` option and its fields. -/
inductive Descriptor where
  | mk (Name FullName Package Trailing : String) (MapEntry : Bool)
      (Messages : List Descriptor) (Enums : List EnumDescriptor)
      (Fields : List FieldDescriptor)

/-- Go `md.GetName()`. -/
def Descriptor.GetName : Descriptor → String
  | .mk n _ _ _ _ _ _ _ => n

/-- Go `md.GetFullName()`. -/
def Descriptor.GetFullName : Descriptor → String
  | .mk _ n _ _ _ _ _ _ => n

/-- Go `md.GetPackage()`. -/
def Descriptor.GetPackage : Descriptor → String
  | .mk _ _ p _ _ _ _ _ => p

/-- Go `md.GetComments().GetTrailing()`. -/
def Descriptor.GetTrailing : Descriptor → String
  | .mk _ _ _ c _ _ _ _ => c

/-- Go `t.Options.GetMapEntry()`. -/
def Descriptor.GetMapEntry : Descriptor → Bool
  | .mk _ _ _ _ b _ _ _ => b

/-- Go `md.GetMessages()`, and `md.NestedType` for the raw view. -/
def Descriptor.GetMessages : Descriptor → List Descriptor
  | .mk _ _ _ _ _ ms _ _ => ms

/-- Go `md.GetEnums()`. -/
def Descriptor.GetEnums : Descriptor → List EnumDescriptor
  | .mk _ _ _ _ _ _ es _ => es

/-- Go `md.GetMessageFields()`, and `m.GetField()` for the raw view. -/
def Descriptor.GetMessageFields : Descriptor → List FieldDescriptor
  | .mk _ _ _ _ _ _ _ fs => fs

/-! ## Schema index -/

/-- Go `func newGenerator(params commandLineParams) *twirp`. -/
def newGenerator (params : commandLineParams) : twirp :=
  { params := params, output := "", messages := GoMap.empty, enums := GoMap.empty,
    apis := [], comments := "", name := "" }

/-- Go `func (t *twirp) scanEnum(md *protokit.EnumDescriptor)`. -/
def scanEnum (t : twirp) (md : EnumDescriptor) : twirp :=
  { t with enums := t.enums.set ("." ++ md.FullName) md }

/-- Go `%d` of an `int32`. -/
def formatInt (n : Int) : String := toString n

/-- The table `maps` of `scanMessage` (source lines 157-164): the nested types
flagged as map entries, under the name `.<package>.<message name>.<nested name>`. -/
def mapEntries (pkg name : String) (nested : List Descriptor) : GoMap Descriptor :=
  nested.foldl
    (fun maps n =>
      if n.GetMapEntry then maps.set ("." ++ pkg ++ "." ++ name ++ "." ++ n.GetName) n
      else maps)
    GoMap.empty

/-- The loop over the fields of a map entry (source lines 193-204). -/
def applyMapEntry (f : field) (entryFields : List FieldDescriptor) : field :=
  entryFields.foldl
    (fun f ff =>
      if ff.Name = "key" then { f with KeyType := ff.Type_.String }
      else if ff.Name = "value" then
        let typeName := ff.TypeName
        let typeName := if typeName = "" then ff.Type_.String else typeName
        { f with Type_ := typeName }
      else f)
    f

/-- The body of the field loop of `scanMessage` (source lines 167-207). -/
def scanField (enums : GoMap EnumDescriptor) (maps : GoMap Descriptor)
    (fd : FieldDescriptor) : field :=
  let typeName := fd.TypeName
  let typeName := if typeName = "" then fd.Type_.String else typeName
  let f : field :=
    { Name := fd.Name, Type_ := typeName, KeyType := "", Doc := fd.Leading,
      Note := fd.Trailing, Label := fd.Label }
  let f :=
    match enums fd.TypeName with
    | some e =>
      let parts := e.Values.map
        (fun v => v.Name ++ "(=" ++ formatInt v.Number ++ ") " ++ v.Trailing)
      { f with Type_ := "TYPE_ENUM", Doc := joinWith "\n" parts }
    | none => f
  match maps f.Type_ with
  | some m =>
    let f := applyMapEntry f m.GetMessageFields
    { f with Label := FieldDescriptorProto_Label.zero }
  | none => f

mutual
/-- Go `func (t *twirp) scanMessage(md *protokit.Descriptor)`. -/
def scanMessage (t : twirp) : Descriptor → twirp
  | .mk name fullName pkg trailing _ msgs enums fds =>
    let t := scanMessageList t msgs
    let t := enums.foldl scanEnum t
    let maps := mapEntries pkg name msgs
    let fields := fds.map (scanField t.enums maps)
    let m : message :=
      { Name := name, Doc := trailing, Fields := fields,
        Label := FieldDescriptorProto_Label.zero }
    { t with messages := t.messages.set fullName m }
/-- The loop `for _, smd := range md.GetMessages() { t.scanMessage(smd) }`. -/
def scanMessageList (t : twirp) : List Descriptor → twirp
  | [] => t
  | md :: mds => scanMessageList (scanMessage t md) mds
end

/-! ## More Go library helpers -/

/-- The collaborators outside the repository: the pretty-printer and the Unicode case
table of the Go library. -/
structure External where
  /-- Result `code` of `jsbeautifier.Beautify`; the source drops its error. -/
  Beautify : String → String
  /-- Go `unicode.ToLower` on the runes outside ASCII. -/
  ToLower : Char → Char

/-- Go `unicode.ToLower`: `A`..`Z` are shifted to `a`..`z`, the other ASCII runes are
kept, the rest goes through the case table. -/
def toLowerRune (ext : External) (c : Char) : Char :=
  if c.val < 128 then (if 'A' ≤ c ∧ c ≤ 'Z' then Char.ofNat (c.toNat + 32) else c)
  else ext.ToLower c

/-- Go `strings.ToLower`. -/
def stringsToLower (ext : External) (s : String) : String := ⟨s.data.map (toLowerRune ext)⟩

/-- The scan of `strings.Replace` for a non-empty `old`: `skip` counts the runes of a
match still to be passed over, `limit` the replacements left (`none`: no limit). -/
def replaceScan (old new : List Char) : Nat → Option Nat → List Char → List Char
  | _, _, [] => []
  | skip + 1, limit, _ :: cs => replaceScan old new skip limit cs
  | 0, limit, c :: cs =>
    if limit ≠ some 0 ∧ old.isPrefixOf (c :: cs) = true then
      new ++ replaceScan old new (old.length - 1) (limit.map Nat.pred) cs
    else c :: replaceScan old new 0 limit cs

/-- Go `strings.Replace(s, old, new, n)` for a non-empty `old` (every call of the source
passes a constant, non-empty `old`): the first `n` occurrences from the left, all of them
for a negative `n`. -/
def stringsReplace (s old new : String) (n : Int) : String :=
  if old = new ∨ n = 0 ∨ old = "" then s
  else ⟨replaceScan old.data new.data 0 (if n < 0 then none else some n.toNat) s.data⟩

/-- Splitting a character list at every `sep`; the result is never empty. -/
def splitAux (sep : Char) : List Char → List Char → List String
  | [], cur => [⟨cur.reverse⟩]
  | c :: cs, cur =>
    if c = sep then ⟨cur.reverse⟩ :: splitAux sep cs [] else splitAux sep cs (c :: cur)

/-- Go `strings.Split(s, sep)` for a separator of one ASCII character. -/
def stringsSplit (s : String) (sep : Char) : List String := splitAux sep s.data []

/-- Go `strings.Index(s, sep)` for a separator of one ASCII character; `none` stands for
the result `-1`. -/
def stringsIndex : List Char → Char → Option Nat
  | [], _ => none
  | c :: cs, sep => if c = sep then some 0 else (stringsIndex cs sep).map (· + 1)

/-- Go `strings.HasPrefix(s, prefix)`. -/
def stringsHasPrefix (s pre : String) : Bool := pre.data.isPrefixOf s.data

/-! ## Services, files and the response -/

/-- The part of `protokit.MethodDescriptor` that `scanService` reads. -/
structure MethodDescriptor where
  Name : String
  FullName : String
  InputType : String
  OutputType : String
  Leading : String
  deriving DecidableEq, Repr

/-- The part of `protokit.ServiceDescriptor` that the generator reads; `Leading` is
`d.Comments.Leading`. -/
structure ServiceDescriptor where
  Name : String
  FullName : String
  Leading : String
  Methods : List MethodDescriptor
  deriving DecidableEq, Repr

/-- The part of `protokit.FileDescriptor` that the generator reads. -/
inductive FileDescriptor where
  | mk (Name : String) (Imports : List FileDescriptor) (Enums : List EnumDescriptor)
      (Messages : List Descriptor) (Services : List ServiceDescriptor)

/-- Go `d.GetName()`. -/
def FileDescriptor.GetName : FileDescriptor → String
  | .mk n _ _ _ _ => n

/-- Go `d.GetImports()`, each with its `GetFile()`. -/
def FileDescriptor.GetImports : FileDescriptor → List FileDescriptor
  | .mk _ is _ _ _ => is

/-- Go `d.GetEnums()`. -/
def FileDescriptor.GetEnums : FileDescriptor → List EnumDescriptor
  | .mk _ _ es _ _ => es

/-- Go `d.GetMessages()`. -/
def FileDescriptor.GetMessages : FileDescriptor → List Descriptor
  | .mk _ _ _ ms _ => ms

/-- Go `d.GetServices()`. -/
def FileDescriptor.GetServices : FileDescriptor → List ServiceDescriptor
  | .mk _ _ _ _ ss => ss

/-- Go `plugin.CodeGeneratorResponse_File`. -/
structure CodeGeneratorResponse_File where
  Name : String
  Content : String
  deriving DecidableEq, Repr

/-! ## Scan pass -/

/-- Go `func (t *twirp) scanMessages(d *protokit.FileDescriptor)`. -/
def scanMessages (t : twirp) (d : FileDescriptor) : twirp :=
  let t := d.GetEnums.foldl scanEnum t
  scanMessageList t d.GetMessages

/-- Go `func (t *twirp) scanAllMessages(req, resp)`, on the parsed descriptors of the
request. -/
def scanAllMessages (t : twirp) (descriptors : List FileDescriptor) : twirp :=
  descriptors.foldl (fun t d => scanMessages (d.GetImports.foldl scanMessages t) d) t

/-! ## API catalog -/

/-- The record that the method loop of `scanService` fills (source lines 220-230), given
the type names without their first character. -/
def methodApi (t : twirp) (d : ServiceDescriptor) (md : MethodDescriptor)
    (inputType outputType : String) : api :=
  let doc := md.Leading
  { FullName := md.FullName, Method := "POST",
    Path := t.params.pathPrefix ++ "/" ++ d.FullName ++ "/" ++ md.Name,
    Doc := stringsReplace doc "\n" "\n\n" (-1),
    Request := t.messages inputType, Reply := t.messages outputType,
    Input := "", Output := "" }

/-- The body of the method loop of `scanService` (source lines 220-231).  The slices
`md.GetInputType()[1:]` and `md.GetOutputType()[1:]` panic on an empty type name; they
drop the leading dot of a type name. -/
def scanMethod (t : twirp) (d : ServiceDescriptor) (md : MethodDescriptor) :
    Except Fault twirp :=
  match md.InputType.data with
  | [] => .error Fault.indexOutOfRange
  | _ :: inputType =>
    match md.OutputType.data with
    | [] => .error Fault.indexOutOfRange
    | _ :: outputType =>
      .ok { t with apis := t.apis ++ [methodApi t d md ⟨inputType⟩ ⟨outputType⟩] }

/-- The method loop of `scanService`. -/
def scanMethods (d : ServiceDescriptor) : twirp → List MethodDescriptor → Except Fault twirp
  | t, [] => .ok t
  | t, md :: mds =>
    match scanMethod t d md with
    | .error e => .error e
    | .ok t => scanMethods d t mds

/-- Go `func (t *twirp) scanService(d *protokit.ServiceDescriptor)`. -/
def scanService (t : twirp) (d : ServiceDescriptor) : Except Fault twirp :=
  scanMethods d { t with comments := d.Leading } d.Methods

/-! ## Markdown assembler -/

/-- Go `func (t *twirp) P(args ...string)`. -/
def P (t : twirp) (args : List String) : twirp :=
  { t with output := args.foldl (fun out v => out ++ v) t.output ++ "\n" }

/-- The anchor of a path (source lines 392-394). -/
def anchor (ext : External) (path : String) : String :=
  let anchor := stringsReplace path "/" "" (-1)
  let anchor := stringsReplace anchor "." "" (-1)
  stringsToLower ext anchor

/-- The body of the first loop over the APIs in `generateDoc`: the line of the table of
contents. -/
def tocLine (ext : External) (t : twirp) (a : api) : twirp :=
  P t ["- [" ++ a.Path ++ "](#" ++ anchor ext a.Path ++ ")"]

/-- The body of the second loop over the APIs in `generateDoc`: the section of a
method. -/
def apiSection (ext : External) (t : twirp) (a : api) : twirp :=
  let t := P t ["## ", a.Path]
  let t := P t []
  let t := P t [a.Doc]
  let t := P t []
  let t := P t ["### Method"]
  let t := P t []
  let t := P t [a.Method]
  let t := P t []
  let t := P t ["### Request"]
  let t := P t ["```javascript"]
  let t := P t [ext.Beautify a.Input]
  let t := P t ["```"]
  let t := P t []
  let t := P t ["### Reply"]
  let t := P t ["```javascript"]
  let t := P t [ext.Beautify a.Output]
  P t ["```"]

/-- Go `func (t *twirp) generateDoc()`. -/
def generateDoc (ext : External) (t : twirp) : twirp :=
  let t := P t ["# ", t.name]
  let t := P t []
  let comments := stringsSplit t.comments '\n'
  let t := comments.foldl (fun t value => P t [value, "  "]) t
  let t := P t []
  let t := t.apis.foldl (tocLine ext) t
  let t := P t []
  t.apis.foldl (apiSection ext) t

/-- The loop over `t.apis` in `GenerateMarkdown` (source lines 84-87): every API recorded
so far is rendered. -/
def renderApis (fuel : Nat) (t : twirp) : List api → Except Fault (List api)
  | [] => .ok []
  | a :: rest =>
    match generateJsDocForMessage fuel t a.Request with
    | .error e => .error e
    | .ok input =>
      match generateJsDocForMessage fuel t a.Reply with
      | .error e => .error e
      | .ok output =>
        match renderApis fuel t rest with
        | .error e => .error e
        | .ok rest => .ok ({ a with Input := input, Output := output } :: rest)

/-- The body of the service loop of `GenerateMarkdown` (source lines 82-95). -/
def generateService (ext : External) (fuel : Nat) (d : FileDescriptor)
    (st : twirp × List CodeGeneratorResponse_File) (sd : ServiceDescriptor) :
    Except Fault (twirp × List CodeGeneratorResponse_File) :=
  match scanService st.1 sd with
  | .error e => .error e
  | .ok t =>
    let t := { t with name := sd.Name }
    match renderApis fuel t t.apis with
    | .error e => .error e
    | .ok apis =>
      let t := { t with apis := apis }
      let t := generateDoc ext t
      let name := stringsReplace d.GetName ".proto" ".md" 1
      .ok (t, st.2 ++ [{ Name := name, Content := t.output }])

/-- The service loop of `GenerateMarkdown`. -/
def generateServices (ext : External) (fuel : Nat) (d : FileDescriptor) :
    twirp × List CodeGeneratorResponse_File → List ServiceDescriptor →
    Except Fault (twirp × List CodeGeneratorResponse_File)
  | st, [] => .ok st
  | st, sd :: sds =>
    match generateService ext fuel d st sd with
    | .error e => .error e
    | .ok st => generateServices ext fuel d st sds

/-- Go `func (t *twirp) GenerateMarkdown(req, resp)`, on the parsed descriptors of the
request; the state is the generator and the files of the response. -/
def GenerateMarkdown (ext : External) (fuel : Nat) :
    twirp × List CodeGeneratorResponse_File → List FileDescriptor →
    Except Fault (twirp × List CodeGeneratorResponse_File)
  | st, [] => .ok st
  | st, d :: ds =>
    match generateServices ext fuel d st d.GetServices with
    | .error e => .error e
    | .ok st => GenerateMarkdown ext fuel st ds

/-- Go `func (t *twirp) Generate(in) *plugin.CodeGeneratorResponse`: the files of the
response. -/
def Generate (ext : External) (fuel : Nat) (t : twirp) (descriptors : List FileDescriptor) :
    Except Fault (List CodeGeneratorResponse_File) :=
  match GenerateMarkdown ext fuel (scanAllMessages t descriptors, []) descriptors with
  | .error e => .error e
  | .ok st => .ok st.2

/-! ## Command-line parameters (`command_line.go`) -/

/-- The errors of `parseCommandLineParams`: `invalid parameter %q: expected format of
parameter to be k=v` and `unknown parameter %q`, each with its argument. -/
inductive ParamError where
  | invalidParameter (p : String)
  | unknownParameter (k : String)
  deriving DecidableEq, Repr

/-- The assignment `ps[k] = v` on the entries of the Go map `ps`, kept as a list without
repeated keys. -/
def entriesSet : List (String × String) → String → String → List (String × String)
  | [], k, v => [(k, v)]
  | (k', v') :: rest, k, v =>
    if k' = k then (k, v) :: rest else (k', v') :: entriesSet rest k v

/-- The first loop of `parseCommandLineParams` (source lines 21-37), over the tokens. -/
def collectParams :
    List (String × String) → List String → Except ParamError (List (String × String))
  | ps, [] => .ok ps
  | ps, p :: rest =>
    if p = "" then collectParams ps rest
    else
      match stringsIndex p.data '=' with
      | none => .error (ParamError.invalidParameter p)
      | some i =>
        let k : String := ⟨p.data.take i⟩
        let v : String := ⟨p.data.drop (i + 1)⟩
        if v = "" then .error (ParamError.invalidParameter k)
        else collectParams (entriesSet ps k v) rest

/-- The body of the second loop of `parseCommandLineParams` (source lines 40-49). -/
def applyParam (st : commandLineParams × Option ParamError) (kv : String × String) :
    commandLineParams × Option ParamError :=
  let k := kv.1
  let v := kv.2
  if k = "path_prefix" then ({ st.1 with pathPrefix := v }, st.2)
  else if k.data.head? = some 'M' then
    ({ st.1 with importMap := st.1.importMap.set ⟨k.data.drop 1⟩ v }, st.2)
  else if k.data ≠ [] ∧ stringsHasPrefix k "go_import_mapping@" = true then
    ({ st.1 with importMap := st.1.importMap.set ⟨k.data.drop 18⟩ v }, st.2)
  else (st.1, some (ParamError.unknownParameter k))

/-- Go `func parseCommandLineParams(parameter string) (clp commandLineParams, err error)`.
The order in which Go ranges over the map `ps` is not specified: `range` gives the order
of one run, a rearrangement of the entries. -/
def parseCommandLineParams (range : List (String × String) → List (String × String))
    (parameter : String) : commandLineParams × Option ParamError :=
  let clp : commandLineParams := { pathPrefix := "", importMap := GoMap.empty }
  match collectParams [] (stringsSplit parameter ',') with
  | .error e => (clp, some e)
  | .ok ps => (range ps).foldl applyParam (clp, none)

/-! ## Example schemas -/

/-- A generator with an empty index and no path prefix. -/
def emptyGenerator : twirp := newGenerator ⟨"", GoMap.empty⟩

/-- The enum `Color` with `RED = 0; // warm` and `BLUE = 1; // cool`. -/
def exampleColor : EnumDescriptor :=
  ⟨"pkg.Color", [⟨"RED", 0, "warm"⟩, ⟨"BLUE", 1, "cool"⟩]⟩

/-- The message `Paint` with one field `color` of type `Color`, which carries a leading
comment of its own. -/
def examplePaint : Descriptor :=
  .mk "Paint" "pkg.Paint" "pkg" "" false [] []
    [⟨"color", ".pkg.Color", .TYPE_ENUM, .LABEL_OPTIONAL, "the colour", "required"⟩]

/-- The synthetic entry type of a field `map<string, int32> labels`, declared in the
message with full name `owner`. -/
def exampleLabelsEntry (owner : String) : Descriptor :=
  .mk "LabelsEntry" (owner ++ ".LabelsEntry") "pkg" "" true [] []
    [⟨"key", "", .TYPE_STRING, .LABEL_OPTIONAL, "", ""⟩,
     ⟨"value", "", .TYPE_INT32, .LABEL_OPTIONAL, "", ""⟩]

/-- A message named `Inner` with full name `fullName` and the single field
`map<string, int32> labels`, as the descriptor reports it: repeated, of the entry type. -/
def exampleInner (fullName : String) : Descriptor :=
  .mk "Inner" fullName "pkg" "" false [exampleLabelsEntry fullName] []
    [⟨"labels", "." ++ fullName ++ ".LabelsEntry", .TYPE_MESSAGE, .LABEL_REPEATED, "", ""⟩]

/-- The message `Outer`, which declares `Inner` as a nested message. -/
def exampleOuter : Descriptor :=
  .mk "Outer" "pkg.Outer" "pkg" "" false [exampleInner "pkg.Outer.Inner"] [] []

/-- An index that holds the message `pkg.M`, which has no fields. -/
def exampleIndex : twirp :=
  { emptyGenerator with messages := GoMap.empty.set "pkg.M" ⟨"M", [], .zero, ""⟩ }

/-- The pretty-printer and case table that leave every text and rune as it is. -/
def plainExternal : External := ⟨fun s => s, fun c => c⟩

/-- The service `A` with the method `Ping(M) returns (M)`. -/
def exampleServiceA : ServiceDescriptor :=
  ⟨"A", "pkg.A", "", [⟨"Ping", "pkg.A.Ping", ".pkg.M", ".pkg.M", ""⟩]⟩

/-- The service `B` with the method `Pong(M) returns (M)`. -/
def exampleServiceB : ServiceDescriptor :=
  ⟨"B", "pkg.B", "", [⟨"Pong", "pkg.B.Pong", ".pkg.M", ".pkg.M", ""⟩]⟩

/-- A file that declares nothing but the given services. -/
def exampleFile (name : String) (services : List ServiceDescriptor) : FileDescriptor :=
  .mk name [] [] [] services

/-- The message `Palette` with the single field `map<string, Color> shades`. -/
def examplePalette : Descriptor :=
  .mk "Palette" "pkg.Palette" "pkg" "" false
    [.mk "ShadesEntry" "pkg.Palette.ShadesEntry" "pkg" "" true [] []
      [⟨"key", "", .TYPE_STRING, .LABEL_OPTIONAL, "", ""⟩,
       ⟨"value", ".pkg.Color", .TYPE_ENUM, .LABEL_OPTIONAL, "", ""⟩]]
    []
    [⟨"shades", ".pkg.Palette.ShadesEntry", .TYPE_MESSAGE, .LABEL_REPEATED, "", ""⟩]

/-- A file with the message `Shape`, which declares the enum `Kind` and the nested
message `Part` with a field `kind` of type `Kind`. -/
def exampleShapeFile : FileDescriptor :=
  .mk "shape.proto" [] []
    [.mk "Shape" "pkg.Shape" "pkg" "" false
      [.mk "Part" "pkg.Shape.Part" "pkg" "" false [] []
        [⟨"kind", ".pkg.Shape.Kind", .TYPE_ENUM, .LABEL_OPTIONAL, "", ""⟩]]
      [⟨"pkg.Shape.Kind", [⟨"ROUND", 0, "no corners"⟩]⟩]
      []]
    []

/-- An index that holds the message `pkg.Node`, which has a field `next` of its own
type. -/
def exampleLoopIndex : twirp :=
  { emptyGenerator with
    messages := GoMap.empty.set "pkg.Node"
      ⟨"Node", [⟨"next", ".pkg.Node", "", "", "", .LABEL_OPTIONAL⟩], .zero, ""⟩ }

/-- An index that holds the message `pkg.Basket`, which has a repeated field `items` of
the type `pkg.Missing`, absent from the index. -/
def exampleBasketIndex : twirp :=
  { emptyGenerator with
    messages := GoMap.empty.set "pkg.Basket"
      ⟨"Basket", [⟨"items", ".pkg.Missing", "", "", "", .LABEL_REPEATED⟩], .zero, ""⟩ }

/-- An index with the message `Trap`: a repeated field of the absent type `.pkg.Missing`,
then a field of its own type. -/
def exampleTrapIndex : twirp :=
  { emptyGenerator with
    messages := GoMap.empty.set "pkg.Trap"
      ⟨"Trap", [⟨"items", ".pkg.Missing", "", "", "", .LABEL_REPEATED⟩,
        ⟨"self", ".pkg.Trap", "", "", "", .LABEL_OPTIONAL⟩], .zero, ""⟩ }

/-- An index with the message `Pair`, whose field `first` is of the message type `Leaf`,
and the message `Leaf` with one string field. -/
def exampleChainIndex : twirp :=
  { emptyGenerator with
    messages := (GoMap.empty.set "pkg.Pair"
      ⟨"Pair", [⟨"first", ".pkg.Leaf", "", "", "", .LABEL_OPTIONAL⟩], .zero, ""⟩).set "pkg.Leaf"
      ⟨"Leaf", [⟨"id", "TYPE_STRING", "", "", "", .LABEL_OPTIONAL⟩], .zero, ""⟩ }

/-! ## Helpers of the statements -/

/-- The key of a token: the text before its first `=` (the whole token when it holds
no `=`). -/
def tokenKey (p : String) : String := ⟨p.data.takeWhile (fun c => c ≠ '=')⟩

/-- The value of a token: the text after its first `=` (empty when it holds no `=`). -/
def tokenValue (p : String) : String := ⟨(p.data.dropWhile (fun c => c ≠ '=')).drop 1⟩

/-- The value of the last non-empty token with the key `k` among the comma-separated
tokens of a parameter string, if there is one. -/
def lastValue (parameter k : String) : Option String :=
  ((((stringsSplit parameter ',').filter (fun p => p ≠ "")).reverse.find?
    (fun p => tokenKey p = k))).map tokenValue

/-- A token the first loop rejects: it holds no `=`, or nothing after its first `=`. -/
def malformed (p : String) : Prop := '=' ∉ p.data ∨ tokenValue p = ""

/-- The key under which `applyParam` enters the value into `importMap`, if it does. -/
def importKeyOf (k : String) : Option String :=
  if k = "path_prefix" then none
  else if k.data.head? = some 'M' then some ⟨k.data.drop 1⟩
  else if k.data ≠ [] ∧ stringsHasPrefix k "go_import_mapping@" = true then
    some ⟨k.data.drop 18⟩
  else none

/-- A key that the second loop accepts. -/
def recognized (k : String) : Prop :=
  k = "path_prefix" ∨ k.data.head? = some 'M' ∨ "go_import_mapping@".data <+: k.data

/-- The reference graph of an index: `a` refers to `b` when a field of `a` has a message
type name that the index resolves to `b`. -/
def refersTo (t : twirp) (a b : message) : Prop :=
  ∃ f ∈ a.Fields, ∃ n, f.Type_ = "." ++ n ∧ t.messages n = some b

/-- The fields on which `generateJsDocForField` panics by itself: an empty type, or a
repeated or map field whose message type is absent from the index. -/
def panicsOn (t : twirp) (f : field) : Prop :=
  f.Type_ = ""
    ∨ ∃ n, f.Type_ = "." ++ n ∧ t.messages n = none
        ∧ (f.Label = FieldDescriptorProto_Label.LABEL_REPEATED ∨ f.KeyType ≠ "")

/-- Go `strings.TrimLeft(s, " ")`. -/
def trimLeftSpaces (s : String) : String := ⟨s.data.dropWhile (fun c => c == ' ')⟩

/-- Go `strings.TrimRight(s, " ")`. -/
def trimRightSpaces (s : String) : String :=
  ⟨(s.data.reverse.dropWhile (fun c => c == ' ')).reverse⟩


/-! ## Trimming lemmas -/

theorem dropWhile_append_stop (p : Char → Bool) (l₁ l₂ : List Char) (c : Char)
    (hc : p c = false) :
    (l₁ ++ c :: l₂).dropWhile p = l₁.dropWhile p ++ c :: l₂ := by
  induction l₁ with
  | nil => simp [List.dropWhile, hc]
  | cons a l ih =>
    by_cases ha : p a = true
    · simp [List.dropWhile, ha, ih]
    · simp [List.dropWhile, ha]

/-- Trimming both ends of a list whose middle part starts and ends with non-spaces. -/
theorem trim_list (p : Char → Bool) (a mid b : List Char) (c₁ c₂ : Char)
    (h₁ : p c₁ = false) (h₂ : p c₂ = false) :
    (((a ++ c₁ :: (mid ++ c₂ :: b)).dropWhile p).reverse.dropWhile p).reverse
      = a.dropWhile p ++ c₁ :: (mid ++ c₂ :: (b.reverse.dropWhile p).reverse) := by
  rw [dropWhile_append_stop p a _ c₁ h₁]
  have hr : (List.dropWhile p a ++ c₁ :: (mid ++ c₂ :: b)).reverse
      = b.reverse ++ c₂ :: (mid.reverse ++ c₁ :: (List.dropWhile p a).reverse) := by
    simp
  rw [hr, dropWhile_append_stop p b.reverse _ c₂ h₂]
  simp

theorem trimSpaces_sandwich (a m b : String) (c₁ c₂ : Char) (mid : List Char)
    (hm : m.data = c₁ :: (mid ++ [c₂])) (h₁ : c₁ ≠ ' ') (h₂ : c₂ ≠ ' ') :
    trimSpaces (a ++ m ++ b) = trimLeftSpaces a ++ m ++ trimRightSpaces b := by
  apply String.ext
  have e₁ : (fun c : Char => c == ' ') c₁ = false := by simpa using h₁
  have e₂ : (fun c : Char => c == ' ') c₂ = false := by simpa using h₂
  have hd : (a ++ m ++ b).data = a.data ++ c₁ :: (mid ++ c₂ :: b.data) := by
    simp [String.data_append, hm]
  show (((a ++ m ++ b).data.dropWhile _).reverse.dropWhile _).reverse = _
  rw [hd, trim_list _ a.data mid b.data c₁ c₂ e₁ e₂]
  simp [String.data_append, hm, trimLeftSpaces, trimRightSpaces]

theorem splitLinesAux_ne_nil (cs cur : List Char) : splitLinesAux cs cur ≠ [] := by
  induction cs generalizing cur with
  | nil => simp [splitLinesAux]
  | cons c cs ih =>
    unfold splitLinesAux
    split
    · simp
    · exact ih _

theorem foldl_docLine_prefix (ls : List String) (acc : String) :
    ∃ r, ls.foldl (fun js line => js ++ "// " ++ line ++ "\n") acc = acc ++ r := by
  induction ls generalizing acc with
  | nil => exact ⟨"", by simp⟩
  | cons l ls ih =>
    obtain ⟨r, hr⟩ := ih (acc ++ "// " ++ l ++ "\n")
    refine ⟨"// " ++ l ++ "\n" ++ r, ?_⟩
    rw [List.foldl_cons, hr]
    simp [String.append_assoc]

/-- A non-empty doc gives comment lines, which start with a slash. -/
theorem docLines_data (doc : String) (h : doc ≠ "") :
    ∃ rest, (docLines doc).data = '/' :: rest := by
  unfold docLines splitLines
  rw [if_pos h]
  cases hs : splitLinesAux doc.data [] with
  | nil => exact absurd hs (splitLinesAux_ne_nil _ _)
  | cons l ls =>
    obtain ⟨r, hr⟩ := foldl_docLine_prefix ls ("" ++ "// " ++ l ++ "\n")
    rw [List.foldl_cons, hr]
    exact ⟨'/' :: ' ' :: (l.data ++ '\n' :: r.data), by simp [String.data_append]⟩

theorem docLines_empty : docLines "" = "" := by simp [docLines]

/-- The start of a field line: the doc comment lines and the name, which loses its
leading spaces when no comment line precedes it. -/
theorem trimLeftSpaces_docLines (doc name : String) :
    trimLeftSpaces (docLines doc ++ name)
      = docLines doc ++ (if doc = "" then trimLeftSpaces name else name) := by
  by_cases h : doc = ""
  · subst h
    simp [docLines_empty]
  · obtain ⟨rest, hr⟩ := docLines_data doc h
    apply String.ext
    simp [trimLeftSpaces, String.data_append, hr, h, List.dropWhile]

theorem trimRightSpaces_empty : trimRightSpaces "" = "" := by
  apply String.ext; simp [trimRightSpaces]

/-- The text of an annotated field line (`disableDoc` false). -/
theorem fieldLine_annotated (f : field) (v vt : String) :
    fieldLine f v vt false
      = docLines f.Doc ++ (if f.Doc = "" then trimLeftSpaces f.Name else f.Name)
          ++ ": " ++ v ++ ", // type:<" ++ vt ++ ">"
          ++ (if f.Note = "" then "" else trimRightSpaces (", " ++ f.Note)) ++ "\n" := by
  have hm : (": " ++ v ++ ", // type:<" ++ vt ++ ">").data
      = ':' :: ((' ' :: (v.data ++ (", // type:<" : String).data ++ vt.data)) ++ ['>']) := by
    simp [String.data_append]
  have key := fun b => trimSpaces_sandwich (docLines f.Doc ++ f.Name)
    (": " ++ v ++ ", // type:<" ++ vt ++ ">") b ':' '>' _ hm (by decide) (by decide)
  unfold fieldLine
  by_cases hn : f.Note = ""
  · have := key ""
    simp only [String.append_empty] at this
    simp only [hn, ne_eq, not_true_eq_false, if_false, if_true, Bool.false_eq_true,
      String.append_empty, ← String.append_assoc] at this ⊢
    rw [this, trimLeftSpaces_docLines, trimRightSpaces_empty]
    simp [String.append_assoc]
  · have := key (", " ++ f.Note)
    simp only [hn, ne_eq, not_false_eq_true, if_false, if_true, Bool.false_eq_true,
      ← String.append_assoc] at this ⊢
    rw [this, trimLeftSpaces_docLines]

/-- The text of a field line without annotation (`disableDoc` true). -/
theorem fieldLine_plain (f : field) (v vt : String) :
    fieldLine f v vt true
      = docLines f.Doc ++ (if f.Doc = "" then trimLeftSpaces f.Name else f.Name)
          ++ ": " ++ v ++ ",\n" := by
  have hm : (": " ++ v ++ ",").data = ':' :: ((' ' :: v.data) ++ [',']) := by
    simp [String.data_append]
  have key := trimSpaces_sandwich (docLines f.Doc ++ f.Name) (": " ++ v ++ ",") "" ':' ',' _ hm
    (by decide) (by decide)
  unfold fieldLine
  simp only [String.append_empty, ← String.append_assoc, if_true] at key ⊢
  rw [key, trimLeftSpaces_docLines, trimRightSpaces_empty]
  simp only [String.append_empty, String.append_assoc]
  rfl

theorem trimLeftSpaces_of_head (s : String) (h : s.data.head? ≠ some ' ') :
    trimLeftSpaces s = s := by
  apply String.ext
  show s.data.dropWhile _ = s.data
  cases hs : s.data with
  | nil => rfl
  | cons c cs =>
    have hc : (c == ' ') = false := by simpa [hs] using h
    simp [List.dropWhile, hc]

/-- For the scalar and enum branches the recursive call is never made. -/
theorem generateJsDocForField_eq_with (fuel : Nat) (t : twirp) (f : field) :
    ∃ r, generateJsDocForField fuel t f = generateJsDocForFieldWith r t f := by
  cases fuel with
  | zero => exact ⟨_, rfl⟩
  | succ n => exact ⟨_, rfl⟩

theorem isRepeated_false (f : field)
    (h : f.Label ≠ FieldDescriptorProto_Label.LABEL_REPEATED) : f.isRepeated = false := by
  simp [field.isRepeated, h]

theorem isRepeated_true (f : field)
    (h : f.Label = FieldDescriptorProto_Label.LABEL_REPEATED) : f.isRepeated = true := by
  simp [field.isRepeated, h]

/-- C1: a field that is neither repeated nor a map, with empty doc and empty note,
renders as `<name>: <literal>, // type:<annotation>` and a newline, the literal and
annotation being those of the table, for every name that does not begin with a space (a
field name is a protobuf identifier); in general the name appears without its leading
spaces, the line being trimmed. -/
theorem plain_scalar_field_line (fuel : Nat) (t : twirp) (f : field) (ty lit ann : String)
    (hrow : (ty, lit, ann) ∈
      [("TYPE_STRING", "\"\"", "string"), ("TYPE_DOUBLE", "0.0", "float"),
       ("TYPE_FLOAT", "0.0", "float"), ("TYPE_BOOL", "false", "bool"),
       ("TYPE_INT64", "\"0\"", "string(int64)"), ("TYPE_UINT64", "\"0\"", "string(int64)"),
       ("TYPE_INT32", "0", "int"), ("TYPE_UINT32", "0", "int"),
       ("TYPE_ENUM", "\"\"", "string(enum)")])
    (hty : f.Type_ = ty) (hrep : f.Label ≠ FieldDescriptorProto_Label.LABEL_REPEATED)
    (hkey : f.KeyType = "") (hdoc : f.Doc = "") (hnote : f.Note = "") :
    generateJsDocForField fuel t f
        = .ok (trimLeftSpaces f.Name ++ ": " ++ lit ++ ", // type:<" ++ ann ++ ">" ++ "\n")
      ∧ (f.Name.data.head? ≠ some ' ' →
          generateJsDocForField fuel t f
            = .ok (f.Name ++ ": " ++ lit ++ ", // type:<" ++ ann ++ ">" ++ "\n")) := by
  have main : generateJsDocForField fuel t f
      = .ok (trimLeftSpaces f.Name ++ ": " ++ lit ++ ", // type:<" ++ ann ++ ">" ++ "\n") := by
    obtain ⟨r, hr⟩ := generateJsDocForField_eq_with fuel t f
    have hrep' := isRepeated_false f hrep
    simp only [List.mem_cons, Prod.mk.injEq, List.mem_singleton, List.not_mem_nil,
      or_false] at hrow
    rw [hr]
    rcases hrow with h | h | h | h | h | h | h | h | h <;>
      obtain ⟨rfl, rfl, rfl⟩ := h <;>
      simp [generateJsDocForFieldWith, fieldValue, hty, hrep', hkey, fieldLine_annotated,
        hdoc, hnote, docLines_empty]
  refine ⟨main, fun h => ?_⟩
  rw [main, trimLeftSpaces_of_head _ h]


/-- C1 witness: an `int64` field named `id`. -/
theorem plain_scalar_field_line_witness :
    generateJsDocForField 0 (newGenerator ⟨"", GoMap.empty⟩)
        ⟨"id", "TYPE_INT64", "", "", "", FieldDescriptorProto_Label.LABEL_OPTIONAL⟩
      = .ok "id: \"0\", // type:<string(int64)>\n" :=
  (plain_scalar_field_line 0 (newGenerator ⟨"", GoMap.empty⟩)
    ⟨"id", "TYPE_INT64", "", "", "", FieldDescriptorProto_Label.LABEL_OPTIONAL⟩
    "TYPE_INT64" "\"0\"" "string(int64)" (by simp) rfl (by decide) rfl rfl rfl).2 (by decide)

/-- C2 (amended): a repeated field of a scalar or enum kind renders the repeated literal
of the source: `["",""]` for string and, with a space after the comma, `[0.0, 0.0]`,
`[false, false]`, `["0", "0"]`, `[0, 0]` and `["", ""]` for the other kinds, with the
annotation of the non-repeated form. -/
theorem repeated_scalar_field_line (fuel : Nat) (t : twirp) (f : field) (ty lit ann : String)
    (hrow : (ty, lit, ann) ∈
      [("TYPE_STRING", "[\"\",\"\"]", "string"), ("TYPE_DOUBLE", "[0.0, 0.0]", "float"),
       ("TYPE_FLOAT", "[0.0, 0.0]", "float"), ("TYPE_BOOL", "[false, false]", "bool"),
       ("TYPE_INT64", "[\"0\", \"0\"]", "string(int64)"),
       ("TYPE_UINT64", "[\"0\", \"0\"]", "string(int64)"),
       ("TYPE_INT32", "[0, 0]", "int"), ("TYPE_UINT32", "[0, 0]", "int"),
       ("TYPE_ENUM", "[\"\", \"\"]", "string(enum)")])
    (hty : f.Type_ = ty) (hrep : f.Label = FieldDescriptorProto_Label.LABEL_REPEATED) :
    generateJsDocForField fuel t f
      = .ok (docLines f.Doc ++ (if f.Doc = "" then trimLeftSpaces f.Name else f.Name)
          ++ ": " ++ lit ++ ", // type:<" ++ ann ++ ">"
          ++ (if f.Note = "" then "" else trimRightSpaces (", " ++ f.Note)) ++ "\n") := by
  obtain ⟨r, hr⟩ := generateJsDocForField_eq_with fuel t f
  have hrep' := isRepeated_true f hrep
  simp only [List.mem_cons, Prod.mk.injEq, List.mem_singleton, List.not_mem_nil,
    or_false] at hrow
  rw [hr]
  rcases hrow with h | h | h | h | h | h | h | h | h <;>
    obtain ⟨rfl, rfl, rfl⟩ := h <;>
    simp [generateJsDocForFieldWith, fieldValue, hty, hrep', fieldLine_annotated]

/-- C2 witness: a repeated `bool` field with a doc comment and a note. -/
theorem repeated_scalar_field_line_witness :
    generateJsDocForField 0 (newGenerator ⟨"", GoMap.empty⟩)
        ⟨"flags", "TYPE_BOOL", "", "set ", "switches",
          FieldDescriptorProto_Label.LABEL_REPEATED⟩
      = .ok "// switches\nflags: [false, false], // type:<bool>, set\n" :=
  (repeated_scalar_field_line 0 (newGenerator ⟨"", GoMap.empty⟩)
    ⟨"flags", "TYPE_BOOL", "", "set ", "switches", FieldDescriptorProto_Label.LABEL_REPEATED⟩
    "TYPE_BOOL" "[false, false]" "bool" (by simp) rfl rfl).trans (by decide)

/-- C2 counterexample: the repeated literal of a `double` field is `[0.0, 0.0]`, with a
space after the comma, and not `[0.0,0.0]`. -/
theorem repeated_scalar_field_line_counterexample :
    generateJsDocForField 0 (newGenerator ⟨"", GoMap.empty⟩)
        ⟨"xs", "TYPE_DOUBLE", "", "", "", FieldDescriptorProto_Label.LABEL_REPEATED⟩
      = .ok "xs: [0.0, 0.0], // type:<float>\n"
    ∧ generateJsDocForField 0 (newGenerator ⟨"", GoMap.empty⟩)
        ⟨"xs", "TYPE_DOUBLE", "", "", "", FieldDescriptorProto_Label.LABEL_REPEATED⟩
      ≠ .ok "xs: [0.0,0.0], // type:<float>\n" := by
  decide

/-- C3: a non-repeated map field with a `TYPE_STRING` key and a scalar value kind renders
the map example and the annotation `map<string,V>` of the table; a field that is repeated
renders the repeated form whatever its key type. -/
theorem map_scalar_field_line (fuel : Nat) (t : twirp) (f : field)
    (ty mapLit mapAnn repLit ann : String)
    (hrow : (ty, mapLit, mapAnn, repLit, ann) ∈
      [("TYPE_STRING", "\x7b\"\":\"\"\x7d", "map<string,string>", "[\"\",\"\"]", "string"),
       ("TYPE_DOUBLE", "\x7b\"\":0.0\x7d", "map<string,float>", "[0.0, 0.0]", "float"),
       ("TYPE_FLOAT", "\x7b\"\":0.0\x7d", "map<string,float>", "[0.0, 0.0]", "float"),
       ("TYPE_BOOL", "\x7b\"\":false\x7d", "map<string,bool>", "[false, false]", "bool"),
       ("TYPE_INT64", "\x7b\"\":\"0\"\x7d", "map<string,string(int64)>", "[\"0\", \"0\"]",
         "string(int64)"),
       ("TYPE_UINT64", "\x7b\"\":\"0\"\x7d", "map<string,string(int64)>", "[\"0\", \"0\"]",
         "string(int64)"),
       ("TYPE_INT32", "\x7b\"\":0\x7d", "map<string,int>", "[0, 0]", "int"),
       ("TYPE_UINT32", "\x7b\"\":0\x7d", "map<string,int>", "[0, 0]", "int")])
    (hty : f.Type_ = ty) :
    (f.Label ≠ FieldDescriptorProto_Label.LABEL_REPEATED → f.KeyType = "TYPE_STRING" →
      generateJsDocForField fuel t f
        = .ok (docLines f.Doc ++ (if f.Doc = "" then trimLeftSpaces f.Name else f.Name)
            ++ ": " ++ mapLit ++ ", // type:<" ++ mapAnn ++ ">"
            ++ (if f.Note = "" then "" else trimRightSpaces (", " ++ f.Note)) ++ "\n"))
    ∧ (f.Label = FieldDescriptorProto_Label.LABEL_REPEATED →
      generateJsDocForField fuel t f
        = .ok (docLines f.Doc ++ (if f.Doc = "" then trimLeftSpaces f.Name else f.Name)
            ++ ": " ++ repLit ++ ", // type:<" ++ ann ++ ">"
            ++ (if f.Note = "" then "" else trimRightSpaces (", " ++ f.Note)) ++ "\n")) := by
  obtain ⟨r, hr⟩ := generateJsDocForField_eq_with fuel t f
  simp only [List.mem_cons, Prod.mk.injEq, List.mem_singleton, List.not_mem_nil,
    or_false] at hrow
  rw [hr]
  constructor
  · intro hrep hk
    have hrep' := isRepeated_false f hrep
    rcases hrow with h | h | h | h | h | h | h | h <;>
      obtain ⟨rfl, rfl, rfl, rfl, rfl⟩ := h <;>
      simp [generateJsDocForFieldWith, fieldValue, hty, hrep', hk, fieldLine_annotated,
        getType, getTypeValue]
  · intro hrep
    have hrep' := isRepeated_true f hrep
    rcases hrow with h | h | h | h | h | h | h | h <;>
      obtain ⟨rfl, rfl, rfl, rfl, rfl⟩ := h <;>
      simp [generateJsDocForFieldWith, fieldValue, hty, hrep', fieldLine_annotated]

/-- C3 witness: a `map<string,bool>` field, and a repeated `int32` field that carries a
key type. -/
theorem map_scalar_field_line_witness :
    generateJsDocForField 0 (newGenerator ⟨"", GoMap.empty⟩)
        ⟨"flags", "TYPE_BOOL", "TYPE_STRING", "", "", FieldDescriptorProto_Label.zero⟩
      = .ok "flags: \x7b\"\":false\x7d, // type:<map<string,bool>>\n"
    ∧ generateJsDocForField 0 (newGenerator ⟨"", GoMap.empty⟩)
        ⟨"ns", "TYPE_INT32", "TYPE_STRING", "", "", FieldDescriptorProto_Label.LABEL_REPEATED⟩
      = .ok "ns: [0, 0], // type:<int>\n" :=
  ⟨((map_scalar_field_line 0 (newGenerator ⟨"", GoMap.empty⟩)
      ⟨"flags", "TYPE_BOOL", "TYPE_STRING", "", "", FieldDescriptorProto_Label.zero⟩
      "TYPE_BOOL" "\x7b\"\":false\x7d" "map<string,bool>" "[false, false]" "bool"
      (by simp) rfl).1 (by decide) rfl).trans (by decide),
   ((map_scalar_field_line 0 (newGenerator ⟨"", GoMap.empty⟩)
      ⟨"ns", "TYPE_INT32", "TYPE_STRING", "", "", FieldDescriptorProto_Label.LABEL_REPEATED⟩
      "TYPE_INT32" "\x7b\"\":0\x7d" "map<string,int>" "[0, 0]" "int"
      (by simp) rfl).2 rfl).trans (by decide)⟩

/-! ## Schema index: field resolution -/

theorem mapEntries_fold_none (pkg name : String) (nested : List Descriptor)
    (acc : GoMap Descriptor) (key : String) (hk : key.data.head? ≠ some '.')
    (hacc : acc key = none) :
    nested.foldl
      (fun maps n =>
        if n.GetMapEntry then maps.set ("." ++ pkg ++ "." ++ name ++ "." ++ n.GetName) n
        else maps) acc key = none := by
  induction nested generalizing acc with
  | nil => exact hacc
  | cons n ns ih =>
    rw [List.foldl_cons]
    apply ih
    split
    · have hne : key ≠ "." ++ pkg ++ "." ++ name ++ "." ++ n.GetName := by
        intro h
        apply hk
        rw [h]
        simp [String.data_append]
      simp [GoMap.set, hne, hacc]
    · exact hacc

/-- Every key of the table `maps` starts with a dot. -/
theorem mapEntries_none (pkg name : String) (nested : List Descriptor) (key : String)
    (hk : key.data.head? ≠ some '.') : mapEntries pkg name nested key = none :=
  mapEntries_fold_none pkg name nested GoMap.empty key hk rfl

theorem scanField_enum (enums : GoMap EnumDescriptor) (pkg name : String)
    (nested : List Descriptor) (fd : FieldDescriptor) (e : EnumDescriptor)
    (he : enums fd.TypeName = some e) :
    scanField enums (mapEntries pkg name nested) fd
      = { Name := fd.Name, Type_ := "TYPE_ENUM", KeyType := "", Note := fd.Trailing,
          Doc := joinWith "\n"
            (e.Values.map (fun v => v.Name ++ "(=" ++ formatInt v.Number ++ ") " ++ v.Trailing)),
          Label := fd.Label } := by
  have hnone : mapEntries pkg name nested "TYPE_ENUM" = none :=
    mapEntries_none pkg name nested "TYPE_ENUM" (by decide)
  simp [scanField, he, hnone]

/-- What `scanMessage` stores under the full name of the message it scans. -/
theorem scanMessage_stored (t : twirp) (name fullName pkg trailing : String) (isEntry : Bool)
    (msgs : List Descriptor) (enums : List EnumDescriptor) (fds : List FieldDescriptor) :
    (scanMessage t (.mk name fullName pkg trailing isEntry msgs enums fds)).messages fullName
      = some
          { Name := name,
            Fields := fds.map
              (scanField (enums.foldl scanEnum (scanMessageList t msgs)).enums
                (mapEntries pkg name msgs)),
            Label := FieldDescriptorProto_Label.zero, Doc := trailing } := by
  rw [scanMessage]
  simp [GoMap.set]

/-- C5: a field whose type name is an enum in the index when the field is resolved
(the index after the nested messages and enums of the message are registered) is
stored with type `TYPE_ENUM` and with the doc `n_i(=k_i) c_i`, one line per enum value
in declaration order, joined by newlines; the field's own leading comment is dropped. -/
theorem enum_field_doc (t : twirp) (md : Descriptor) (i : Nat) (fd : FieldDescriptor)
    (e : EnumDescriptor) (hfd : md.GetMessageFields[i]? = some fd)
    (he : (md.GetEnums.foldl scanEnum (scanMessageList t md.GetMessages)).enums fd.TypeName
      = some e) :
    ∃ m, (scanMessage t md).messages md.GetFullName = some m
      ∧ m.Fields.length = md.GetMessageFields.length
      ∧ m.Fields[i]? = some
          { Name := fd.Name, Type_ := "TYPE_ENUM", KeyType := "", Note := fd.Trailing,
            Doc := joinWith "\n"
              (e.Values.map
                (fun v => v.Name ++ "(=" ++ formatInt v.Number ++ ") " ++ v.Trailing)),
            Label := fd.Label } := by
  cases md with
  | mk name fullName pkg trailing isEntry msgs enums fds =>
    simp only [Descriptor.GetMessageFields, Descriptor.GetEnums, Descriptor.GetMessages,
      Descriptor.GetFullName] at hfd he ⊢
    refine ⟨_, scanMessage_stored t name fullName pkg trailing isEntry msgs enums fds, ?_, ?_⟩
    · simp
    · simp only [List.getElem?_map, hfd, Option.map_some']
      rw [scanField_enum _ _ _ _ _ e he]

/-- C5 witness: the field `color` of `Paint`, of the enum type `Color` with the values
`RED = 0` (warm) and `BLUE = 1` (cool), registered before the message is scanned. -/
theorem enum_field_doc_witness :
    ∃ m, (scanMessage (scanEnum emptyGenerator exampleColor) examplePaint).messages "pkg.Paint"
        = some m
      ∧ m.Fields.length = 1
      ∧ m.Fields[0]? = some
          { Name := "color", Type_ := "TYPE_ENUM", KeyType := "", Note := "required",
            Doc := "RED(=0) warm\nBLUE(=1) cool",
            Label := FieldDescriptorProto_Label.LABEL_OPTIONAL } :=
  enum_field_doc (scanEnum emptyGenerator exampleColor) examplePaint 0
    ⟨"color", ".pkg.Color", .TYPE_ENUM, .LABEL_OPTIONAL, "the colour", "required"⟩
    exampleColor rfl rfl

/-- C6 (failing input): the map field `labels` of `Inner`, a message nested in `Outer`,
is stored as a repeated field of the entry type, with no key type, and renders in list
form; the same declaration in a top-level message `Inner` is stored as a map field. -/
theorem nested_map_field_stays_repeated :
    (scanMessage emptyGenerator exampleOuter).messages "pkg.Outer.Inner"
        = some ⟨"Inner",
            [⟨"labels", ".pkg.Outer.Inner.LabelsEntry", "", "", "",
              FieldDescriptorProto_Label.LABEL_REPEATED⟩],
            FieldDescriptorProto_Label.zero, ""⟩
    ∧ generateJsDocForField 1 (scanMessage emptyGenerator exampleOuter)
        ⟨"labels", ".pkg.Outer.Inner.LabelsEntry", "", "", "",
          FieldDescriptorProto_Label.LABEL_REPEATED⟩
        = .ok ("labels: [// type:<list<LabelsEntry>>\n\x7b\nkey: \"\", // type:<string>\n"
            ++ "value: 0, // type:<int>\n\x7d],\n")
    ∧ (scanMessage emptyGenerator (exampleInner "pkg.Inner")).messages "pkg.Inner"
        = some ⟨"Inner",
            [⟨"labels", "TYPE_INT32", "TYPE_STRING", "", "", FieldDescriptorProto_Label.zero⟩],
            FieldDescriptorProto_Label.zero, ""⟩
    ∧ generateJsDocForField 1 (scanMessage emptyGenerator (exampleInner "pkg.Inner"))
        ⟨"labels", "TYPE_INT32", "TYPE_STRING", "", "", FieldDescriptorProto_Label.zero⟩
        = .ok "labels: \x7b\"\":0\x7d, // type:<map<string,int>>\n" := by
  decide

/-! ## Message-typed fields -/

theorem dot_append_ne (n s : String) (hs : s.data.head? ≠ some '.') : "." ++ n ≠ s := by
  intro h
  apply hs
  rw [← h]
  simp [String.data_append]

/-- The message branch of the if-chain is taken for a type name that starts with a dot. -/
theorem fieldValue_message (render : Option message → Except Fault String) (t : twirp)
    (f : field) (n : String) (hty : f.Type_ = "." ++ n) :
    fieldValue render t f
      = match messageValue f (t.messages n) (render (t.messages n)) with
        | .error e => .error e
        | .ok v => .ok (v, "", true) := by
  have h1 := dot_append_ne n "TYPE_STRING" (by decide)
  have h2 := dot_append_ne n "TYPE_DOUBLE" (by decide)
  have h3 := dot_append_ne n "TYPE_FLOAT" (by decide)
  have h4 := dot_append_ne n "TYPE_BOOL" (by decide)
  have h5 := dot_append_ne n "TYPE_INT64" (by decide)
  have h6 := dot_append_ne n "TYPE_UINT64" (by decide)
  have h7 := dot_append_ne n "TYPE_INT32" (by decide)
  have h8 := dot_append_ne n "TYPE_UINT32" (by decide)
  have h9 := dot_append_ne n "TYPE_ENUM" (by decide)
  have hd : ("." ++ n).data = '.' :: n.data := by simp [String.data_append]
  unfold fieldValue
  simp only [hty, h1, h2, h3, h4, h5, h6, h7, h8, h9, if_false, or_self, hd, if_true]

/-- A message-typed field: the value of the message branch, in a line without
annotation. -/
theorem generateJsDocForField_message (fuel : Nat) (t : twirp) (f : field) (n : String)
    (hty : f.Type_ = "." ++ n) :
    generateJsDocForField (fuel + 1) t f
      = match messageValue f (t.messages n) (generateJsDocForMessage fuel t (t.messages n)) with
        | .error e => .error e
        | .ok v =>
          .ok (docLines f.Doc ++ (if f.Doc = "" then trimLeftSpaces f.Name else f.Name)
            ++ ": " ++ v ++ ",\n") := by
  show generateJsDocForFieldWith (generateJsDocForMessage fuel t) t f = _
  unfold generateJsDocForFieldWith
  rw [fieldValue_message _ t f n hty]
  cases messageValue f (t.messages n) (generateJsDocForMessage fuel t (t.messages n)) with
  | error e => rfl
  | ok v => simp [fieldLine_plain]

theorem generateJsDocForMessage_none (fuel : Nat) (t : twirp) :
    generateJsDocForMessage fuel t none = .ok "\x7b\n\x7d" := by
  cases fuel <;> rfl

/-- A field whose message type is absent from the index: the plain form renders the
empty object, the repeated and the map form dereference the nil message. -/
theorem unresolved_message_field (fuel : Nat) (t : twirp) (f : field) (n : String)
    (hty : f.Type_ = "." ++ n) (habs : t.messages n = none) :
    (f.Label = FieldDescriptorProto_Label.LABEL_REPEATED ∨ f.KeyType ≠ "" →
      generateJsDocForField (fuel + 1) t f = .error Fault.nilDereference)
    ∧ (f.Label ≠ FieldDescriptorProto_Label.LABEL_REPEATED → f.KeyType = "" →
      generateJsDocForField (fuel + 1) t f
        = .ok (docLines f.Doc ++ (if f.Doc = "" then trimLeftSpaces f.Name else f.Name)
            ++ ": " ++ "\x7b\n\x7d" ++ ",\n")) := by
  rw [generateJsDocForField_message fuel t f n hty, habs, generateJsDocForMessage_none]
  constructor
  · intro h
    by_cases hrep : f.Label = FieldDescriptorProto_Label.LABEL_REPEATED
    · simp [messageValue, isRepeated_true f hrep]
    · have hk : f.KeyType ≠ "" := h.resolve_left hrep
      simp [messageValue, isRepeated_false f hrep, hk]
  · intro hrep hk
    simp [messageValue, isRepeated_false f hrep, hk]

/-- C7 (failing input): with fuel to spare, rendering a repeated field and a map field
whose message type `.pkg.Missing` is absent from the index ends in a nil dereference
(the read of `m.Name`), while the plain field of that type renders the empty object. -/
theorem unresolved_repeated_field_panics (fuel : Nat) :
    generateJsDocForField (fuel + 1) emptyGenerator
        ⟨"items", ".pkg.Missing", "", "", "", FieldDescriptorProto_Label.LABEL_REPEATED⟩
      = .error Fault.nilDereference
    ∧ generateJsDocForField (fuel + 1) emptyGenerator
        ⟨"index", ".pkg.Missing", "TYPE_STRING", "", "", FieldDescriptorProto_Label.zero⟩
      = .error Fault.nilDereference
    ∧ generateJsDocForField (fuel + 1) emptyGenerator
        ⟨"item", ".pkg.Missing", "", "", "", FieldDescriptorProto_Label.LABEL_OPTIONAL⟩
      = .ok "item: \x7b\n\x7d,\n" :=
  ⟨(unresolved_message_field fuel emptyGenerator _ "pkg.Missing" rfl rfl).1 (Or.inl rfl),
   (unresolved_message_field fuel emptyGenerator _ "pkg.Missing" rfl rfl).1
     (Or.inr (by decide)),
   ((unresolved_message_field fuel emptyGenerator _ "pkg.Missing" rfl rfl).2
     (by decide) rfl).trans (by decide)⟩

/-! ## Rendering a message -/

theorem generateJsDocForMessage_some (fuel : Nat) (t : twirp) (m : message) :
    generateJsDocForMessage fuel t (some m)
      = match renderFields (generateJsDocForField fuel t) m.Fields ("" ++ "\x7b\n") with
        | .error e => .error e
        | .ok js => .ok (js ++ "\x7d") := by
  cases fuel <;> rfl

theorem join_foldl (parts : List String) (acc : String) :
    parts.foldl (fun r s => r ++ s) acc = acc ++ String.join parts := by
  induction parts generalizing acc with
  | nil => simp [String.join]
  | cons p ps ih =>
    have hj : String.join (p :: ps) = p ++ String.join ps := by
      show List.foldl (fun r s => r ++ s) "" (p :: ps) = _
      rw [List.foldl_cons, ih ("" ++ p)]
      simp
    rw [List.foldl_cons, ih, hj, String.append_assoc]

theorem join_cons (p : String) (ps : List String) :
    String.join (p :: ps) = p ++ String.join ps := by
  rw [String.join, List.foldl_cons, join_foldl]
  simp

/-- The field loop appends the renderings of the fields, in order, to the text so far. -/
theorem renderFields_ok (g : field → Except Fault String) (fs : List field)
    (parts : List String) (js : String)
    (h : List.Forall₂ (fun f s => g f = .ok s) fs parts) :
    renderFields g fs js = .ok (js ++ String.join parts) := by
  induction h generalizing js with
  | nil => simp [renderFields, String.join]
  | cons hf _ ih =>
    rw [renderFields, hf]
    simp only [ih, join_cons, String.append_assoc]

/-- The field loop fails when the rendering of one of the fields fails. -/
theorem renderFields_error (g : field → Except Fault String) (fs : List field) (js : String)
    (f : field) (e : Fault) (hf : f ∈ fs) (he : g f = .error e) :
    ∃ e', renderFields g fs js = .error e' := by
  induction fs generalizing js with
  | nil => simp at hf
  | cons a fs ih =>
    rw [renderFields]
    cases ha : g a with
    | error e' => exact ⟨e', rfl⟩
    | ok s =>
      rcases List.mem_cons.mp hf with h | h
      · rw [h, ha] at he
        cases he
      · exact ih _ h

theorem generateJsDocForField_newline (fuel : Nat) (t : twirp) (f : field) (s : String)
    (h : generateJsDocForField fuel t f = .ok s) : ∃ body, s = body ++ "\n" := by
  obtain ⟨r, hr⟩ := generateJsDocForField_eq_with fuel t f
  rw [hr] at h
  unfold generateJsDocForFieldWith at h
  cases hv : fieldValue r t f with
  | error e => simp [hv] at h
  | ok p =>
    obtain ⟨v, vt, b⟩ := p
    simp only [hv, Except.ok.injEq] at h
    exact ⟨_, h.symm.trans rfl⟩


/-- C8: the rendering of an absent message is an open brace, a newline and a close
brace, the same text as for a message without fields; the rendering of a present
message is the open brace and newline, the renderings of its fields in declaration
order, and the close brace, and it fails exactly when the rendering of a field fails;
every field rendering ends with a newline. -/
theorem generateJsDocForMessage_layout (fuel : Nat) (t : twirp) :
    generateJsDocForMessage fuel t none = .ok "\x7b\n\x7d"
    ∧ (∀ name label doc,
        generateJsDocForMessage fuel t (some ⟨name, [], label, doc⟩) = .ok "\x7b\n\x7d")
    ∧ (∀ m parts,
        List.Forall₂ (fun f s => generateJsDocForField fuel t f = .ok s) m.Fields parts →
        generateJsDocForMessage fuel t (some m)
          = .ok ("\x7b\n" ++ String.join parts ++ "\x7d"))
    ∧ (∀ m f e, f ∈ m.Fields → generateJsDocForField fuel t f = .error e →
        ∃ e', generateJsDocForMessage fuel t (some m) = .error e')
    ∧ (∀ f s, generateJsDocForField fuel t f = .ok s → ∃ body, s = body ++ "\n") := by
  refine ⟨generateJsDocForMessage_none fuel t, ?_, ?_, ?_, ?_⟩
  · intro name label doc
    rw [generateJsDocForMessage_some]
    rfl
  · intro m parts h
    rw [generateJsDocForMessage_some, renderFields_ok _ _ parts _ h]
    rfl
  · intro m f e hf he
    rw [generateJsDocForMessage_some]
    obtain ⟨e', h⟩ := renderFields_error _ m.Fields ("" ++ "\x7b\n") f e hf he
    exact ⟨e', by rw [h]⟩
  · exact generateJsDocForField_newline fuel t

/-- C8 witness: a message with a `string` field and an `int32` field. -/
theorem generateJsDocForMessage_layout_witness :
    generateJsDocForMessage 0 emptyGenerator
        (some ⟨"HelloRequest",
          [⟨"name", "TYPE_STRING", "", "", "", FieldDescriptorProto_Label.LABEL_OPTIONAL⟩,
           ⟨"age", "TYPE_INT32", "", "", "", FieldDescriptorProto_Label.LABEL_OPTIONAL⟩],
          FieldDescriptorProto_Label.zero, ""⟩)
      = .ok ("\x7b\n" ++ String.join ["name: \"\", // type:<string>\n",
          "age: 0, // type:<int>\n"] ++ "\x7d") :=
  (generateJsDocForMessage_layout 0 emptyGenerator).2.2.1 _ _
    (List.Forall₂.cons (by decide) (List.Forall₂.cons (by decide) List.Forall₂.nil))

/-! ## Annotation of a field line -/

/-- The scalar and enum branches of the if-chain give a value and an annotation, the
annotation of the kind or the map annotation over it, and keep the annotation on. -/
theorem fieldValue_scalar (r : Option message → Except Fault String) (t : twirp) (f : field)
    (ann : String)
    (hrow : (f.Type_, ann) ∈
      [("TYPE_STRING", "string"), ("TYPE_DOUBLE", "float"), ("TYPE_FLOAT", "float"),
       ("TYPE_BOOL", "bool"), ("TYPE_INT64", "string(int64)"),
       ("TYPE_UINT64", "string(int64)"), ("TYPE_INT32", "int"), ("TYPE_UINT32", "int"),
       ("TYPE_ENUM", "string(enum)")]) :
    ∃ v vt, (vt = ann ∨ vt = "map<" ++ getType f.KeyType ++ "," ++ ann ++ ">")
      ∧ fieldValue r t f = .ok (v, vt, false) := by
  simp only [List.mem_cons, Prod.mk.injEq, List.mem_singleton, List.not_mem_nil,
    or_false] at hrow
  by_cases hrep : f.isRepeated = true <;> by_cases hk : f.KeyType = "" <;>
    rcases hrow with h | h | h | h | h | h | h | h | h <;>
    obtain ⟨hty, rfl⟩ := h <;>
    simp [fieldValue, hty, hrep, hk, String.append_assoc]

theorem trimRightSpaces_of_last (s : String) (h : s.data.getLast? ≠ some ' ') :
    trimRightSpaces s = s := by
  apply String.ext
  show (s.data.reverse.dropWhile _).reverse = s.data
  rw [List.getLast?_eq_head?_reverse] at h
  cases hs : s.data.reverse with
  | nil =>
    have : s.data = [] := by simpa using hs
    simp [this]
  | cons c cs =>
    have hc : (c == ' ') = false := by simpa [hs] using h
    simp only [List.dropWhile, hc]
    rw [← hs, List.reverse_reverse]

theorem note_last (note : String) (hn : note ≠ "") (h : note.data.getLast? ≠ some ' ') :
    (", " ++ note).data.getLast? ≠ some ' ' := by
  have hd : note.data ≠ [] := fun e => hn (String.ext e)
  simp only [String.data_append]
  rw [List.getLast?_append_of_ne_nil _ hd]
  exact h

/-- C9: the line of a message-typed field, after its doc comment lines, is
`<name>: <value>,` and a newline, without annotation; the line of a scalar or enum field
is `<name>: <value>, // type:<annotation>`, followed by `, <note>` when the field has a
note, and a newline.  This holds for every name that does not begin with a space and every
note that does not end with one, as a protobuf identifier and a comment handed over by
`protokit` are; in general the line is trimmed of spaces at both ends (first two
parts). -/
theorem field_line_type_comment (fuel : Nat) (t : twirp) (f : field) :
    (∀ n, f.Type_ = "." ++ n →
      generateJsDocForField (fuel + 1) t f
        = (messageValue f (t.messages n) (generateJsDocForMessage fuel t (t.messages n))).map
            (fun v => docLines f.Doc ++ (if f.Doc = "" then trimLeftSpaces f.Name else f.Name)
              ++ ": " ++ v ++ ",\n"))
    ∧ (∀ ann, (f.Type_, ann) ∈
          [("TYPE_STRING", "string"), ("TYPE_DOUBLE", "float"), ("TYPE_FLOAT", "float"),
           ("TYPE_BOOL", "bool"), ("TYPE_INT64", "string(int64)"),
           ("TYPE_UINT64", "string(int64)"), ("TYPE_INT32", "int"), ("TYPE_UINT32", "int"),
           ("TYPE_ENUM", "string(enum)")] →
        ∃ v vt, (vt = ann ∨ vt = "map<" ++ getType f.KeyType ++ "," ++ ann ++ ">")
          ∧ generateJsDocForField fuel t f
            = .ok (docLines f.Doc ++ (if f.Doc = "" then trimLeftSpaces f.Name else f.Name)
                ++ ": " ++ v ++ ", // type:<" ++ vt ++ ">"
                ++ (if f.Note = "" then "" else trimRightSpaces (", " ++ f.Note)) ++ "\n"))
    ∧ (f.Name.data.head? ≠ some ' ' →
        (∀ n, f.Type_ = "." ++ n →
          generateJsDocForField (fuel + 1) t f
            = (messageValue f (t.messages n)
                (generateJsDocForMessage fuel t (t.messages n))).map
                (fun v => docLines f.Doc ++ f.Name ++ ": " ++ v ++ ",\n"))
        ∧ (f.Note.data.getLast? ≠ some ' ' →
            ∀ ann, (f.Type_, ann) ∈
              [("TYPE_STRING", "string"), ("TYPE_DOUBLE", "float"), ("TYPE_FLOAT", "float"),
               ("TYPE_BOOL", "bool"), ("TYPE_INT64", "string(int64)"),
               ("TYPE_UINT64", "string(int64)"), ("TYPE_INT32", "int"),
               ("TYPE_UINT32", "int"), ("TYPE_ENUM", "string(enum)")] →
            ∃ v vt, (vt = ann ∨ vt = "map<" ++ getType f.KeyType ++ "," ++ ann ++ ">")
              ∧ generateJsDocForField fuel t f
                = .ok (docLines f.Doc ++ f.Name ++ ": " ++ v ++ ", // type:<" ++ vt ++ ">"
                    ++ (if f.Note = "" then "" else ", " ++ f.Note) ++ "\n"))) := by
  have hmsg : ∀ n, f.Type_ = "." ++ n →
      generateJsDocForField (fuel + 1) t f
        = (messageValue f (t.messages n) (generateJsDocForMessage fuel t (t.messages n))).map
            (fun v => docLines f.Doc ++ (if f.Doc = "" then trimLeftSpaces f.Name else f.Name)
              ++ ": " ++ v ++ ",\n") := by
    intro n hty
    rw [generateJsDocForField_message fuel t f n hty]
    cases messageValue f (t.messages n) (generateJsDocForMessage fuel t (t.messages n)) <;> rfl
  have hscalar : ∀ ann, (f.Type_, ann) ∈
        [("TYPE_STRING", "string"), ("TYPE_DOUBLE", "float"), ("TYPE_FLOAT", "float"),
         ("TYPE_BOOL", "bool"), ("TYPE_INT64", "string(int64)"),
         ("TYPE_UINT64", "string(int64)"), ("TYPE_INT32", "int"), ("TYPE_UINT32", "int"),
         ("TYPE_ENUM", "string(enum)")] →
      ∃ v vt, (vt = ann ∨ vt = "map<" ++ getType f.KeyType ++ "," ++ ann ++ ">")
        ∧ generateJsDocForField fuel t f
          = .ok (docLines f.Doc ++ (if f.Doc = "" then trimLeftSpaces f.Name else f.Name)
              ++ ": " ++ v ++ ", // type:<" ++ vt ++ ">"
              ++ (if f.Note = "" then "" else trimRightSpaces (", " ++ f.Note)) ++ "\n") := by
    intro ann hrow
    obtain ⟨r, hr⟩ := generateJsDocForField_eq_with fuel t f
    obtain ⟨v, vt, hvt, hv⟩ := fieldValue_scalar r t f ann hrow
    refine ⟨v, vt, hvt, ?_⟩
    rw [hr]
    unfold generateJsDocForFieldWith
    rw [hv]
    simp only [fieldLine_annotated]
  refine ⟨hmsg, hscalar, fun hname => ?_⟩
  have hn : (if f.Doc = "" then trimLeftSpaces f.Name else f.Name) = f.Name := by
    split
    · exact trimLeftSpaces_of_head _ hname
    · rfl
  refine ⟨fun n hty => ?_, fun hnote ann hrow => ?_⟩
  · rw [hmsg n hty, hn]
  · obtain ⟨v, vt, hvt, h⟩ := hscalar ann hrow
    refine ⟨v, vt, hvt, ?_⟩
    rw [h, hn]
    by_cases he : f.Note = ""
    · simp [he]
    · simp only [he, if_false]
      rw [trimRightSpaces_of_last _ (note_last _ he hnote)]

/-- C9 witness: a message-typed field whose type is absent from the index, and a `bool`
field with a note. -/
theorem field_line_type_comment_witness :
    generateJsDocForField 1 emptyGenerator
        ⟨"item", ".pkg.Missing", "", "", "", FieldDescriptorProto_Label.LABEL_OPTIONAL⟩
      = .ok "item: \x7b\n\x7d,\n"
    ∧ ∃ v vt, (vt = "bool" ∨ vt = "map<" ++ getType "" ++ "," ++ "bool" ++ ">")
      ∧ generateJsDocForField 1 emptyGenerator
          ⟨"on", "TYPE_BOOL", "", "default", "", FieldDescriptorProto_Label.LABEL_OPTIONAL⟩
        = .ok ("" ++ "on" ++ ": " ++ v ++ ", // type:<" ++ vt ++ ">" ++ ", default" ++ "\n") :=
  ⟨(((field_line_type_comment 0 emptyGenerator
      ⟨"item", ".pkg.Missing", "", "", "", FieldDescriptorProto_Label.LABEL_OPTIONAL⟩).2.2
      (by decide)).1 "pkg.Missing" rfl).trans (by decide),
   ((field_line_type_comment 1 emptyGenerator
      ⟨"on", "TYPE_BOOL", "", "default", "", FieldDescriptorProto_Label.LABEL_OPTIONAL⟩).2.2
      (by decide)).2 (by decide) "bool" (by simp)⟩

/-! ## Key of a map field -/

/-- C4 (amended): in a map field the annotation is `map<K,V>` with `K = getType(KeyType)`
and the key of the example is `getTypeValue(KeyType)` in double quotes, for a scalar value
kind and for a message type alike (a message-typed map field with a note shows the note in
place of the annotation); `getType` gives `string`, `float`, `bool` for the string,
floating and bool kinds and `int` for all four integer kinds, `TYPE_INT64` and
`TYPE_UINT64` included. -/
theorem map_key_display (fuel : Nat) (t : twirp) (f : field)
    (hrep : f.Label ≠ FieldDescriptorProto_Label.LABEL_REPEATED) (hkey : f.KeyType ≠ "") :
    (∀ ty lit V, (ty, lit, V) ∈
        [("TYPE_STRING", "\"\"", "string"), ("TYPE_DOUBLE", "0.0", "float"),
         ("TYPE_FLOAT", "0.0", "float"), ("TYPE_BOOL", "false", "bool"),
         ("TYPE_INT64", "\"0\"", "string(int64)"), ("TYPE_UINT64", "\"0\"", "string(int64)"),
         ("TYPE_INT32", "0", "int"), ("TYPE_UINT32", "0", "int")] →
      f.Type_ = ty →
      generateJsDocForField fuel t f
        = .ok (docLines f.Doc ++ (if f.Doc = "" then trimLeftSpaces f.Name else f.Name)
            ++ ": " ++ ("\x7b" ++ "\"" ++ getTypeValue f.KeyType ++ "\"" ++ ":" ++ lit ++ "\x7d")
            ++ ", // type:<" ++ ("map<" ++ getType f.KeyType ++ "," ++ V ++ ">") ++ ">"
            ++ (if f.Note = "" then "" else trimRightSpaces (", " ++ f.Note)) ++ "\n"))
    ∧ (∀ n m r, f.Type_ = "." ++ n → t.messages n = some m →
      generateJsDocForMessage fuel t (some m) = .ok r →
      generateJsDocForField (fuel + 1) t f
        = .ok (docLines f.Doc ++ (if f.Doc = "" then trimLeftSpaces f.Name else f.Name)
            ++ ": "
            ++ ("\x7b"
                ++ (if f.Note = "" then
                      "// type:<" ++ ("map<" ++ getType f.KeyType ++ "," ++ m.Name ++ ">") ++ ">"
                    else " " ++ f.Note)
                ++ "\n" ++ "\"" ++ getTypeValue f.KeyType ++ "\"" ++ ":" ++ r ++ "\x7d")
            ++ ",\n"))
    ∧ ∀ k K z, (k, K, z) ∈
        [("TYPE_STRING", "string", ""), ("TYPE_DOUBLE", "float", "0.0"),
         ("TYPE_FLOAT", "float", "0.0"), ("TYPE_BOOL", "bool", "false"),
         ("TYPE_INT32", "int", "0"), ("TYPE_UINT32", "int", "0"),
         ("TYPE_INT64", "int", "0"), ("TYPE_UINT64", "int", "0")] →
        getType k = K ∧ getTypeValue k = z := by
  have hrep' := isRepeated_false f hrep
  refine ⟨?_, ?_, ?_⟩
  · intro ty lit V hrow hty
    obtain ⟨r, hr⟩ := generateJsDocForField_eq_with fuel t f
    simp only [List.mem_cons, Prod.mk.injEq, List.mem_singleton, List.not_mem_nil,
      or_false] at hrow
    rw [hr]
    rcases hrow with h | h | h | h | h | h | h | h <;>
      obtain ⟨rfl, rfl, rfl⟩ := h <;>
      simp [generateJsDocForFieldWith, fieldValue, hty, hrep', hkey, fieldLine_annotated,
        String.append_assoc]
  · intro n m r hty hm hr
    have e : ∀ x : String, "// type:<map<" ++ x = "// type:<" ++ ("map<" ++ x) :=
      fun x => by rw [← String.append_assoc]; rfl
    rw [generateJsDocForField_message fuel t f n hty, hm, hr]
    by_cases hn : f.Note = "" <;>
      simp [messageValue, hrep', hkey, hn, String.append_assoc, e]
  · intro k K z h
    simp only [List.mem_cons, Prod.mk.injEq, List.mem_singleton, List.not_mem_nil,
      or_false] at h
    rcases h with h | h | h | h | h | h | h | h <;>
      obtain ⟨rfl, rfl, rfl⟩ := h <;> decide

/-- C4 witness: a `map<uint64,string>` field is annotated `map<int,string>` and its
example key is the quoted zero literal `"0"`. -/
theorem map_key_display_witness :
    generateJsDocForField 0 (newGenerator ⟨"", GoMap.empty⟩)
        ⟨"names", "TYPE_STRING", "TYPE_UINT64", "", "", FieldDescriptorProto_Label.zero⟩
      = .ok "names: \x7b\"0\":\"\"\x7d, // type:<map<int,string>>\n" :=
  ((map_key_display 0 (newGenerator ⟨"", GoMap.empty⟩)
      ⟨"names", "TYPE_STRING", "TYPE_UINT64", "", "", FieldDescriptorProto_Label.zero⟩
      (by decide) (by decide)).1 "TYPE_STRING" "\"\"" "string" (by simp) rfl).trans
    (by decide)

/-- C4 counterexample: the key of a `map<int64,string>` field is displayed as `int`,
not as `string(int64)`, the annotation of a plain `int64` field. -/
theorem map_key_display_counterexample :
    generateJsDocForField 0 (newGenerator ⟨"", GoMap.empty⟩)
        ⟨"names", "TYPE_STRING", "TYPE_INT64", "", "", FieldDescriptorProto_Label.zero⟩
      = .ok "names: \x7b\"0\":\"\"\x7d, // type:<map<int,string>>\n"
    ∧ generateJsDocForField 0 (newGenerator ⟨"", GoMap.empty⟩)
        ⟨"names", "TYPE_STRING", "TYPE_INT64", "", "", FieldDescriptorProto_Label.zero⟩
      ≠ .ok "names: \x7b\"0\":\"\"\x7d, // type:<map<string(int64),string>>\n"
    ∧ generateJsDocForField 0 (newGenerator ⟨"", GoMap.empty⟩)
        ⟨"id", "TYPE_INT64", "", "", "", FieldDescriptorProto_Label.zero⟩
      = .ok "id: \"0\", // type:<string(int64)>\n"
    ∧ getType "TYPE_INT64" = "int" := by
  decide

/-! ## Repeated and map fields of a message type -/

/-- C10 (amended): for a repeated or map field whose message type `M` is in the index
and renders to `r`, the example value is `[` + marker + newline + `r` + `]` for a
repeated field and `{` + marker + newline + `"<key zero literal>":` + `r` + `}` for a map
field, where the marker is `// type:<list<Name>>` (resp. `// type:<map<K,Name>>`, with
`K = getType(KeyType)` and `Name` the name of `M`) when the field has no note, and is a
space followed by the note when it has one. -/
theorem message_collection_value (fuel : Nat) (t : twirp) (f : field) (n : String)
    (m : message) (r : String) (hty : f.Type_ = "." ++ n) (hm : t.messages n = some m)
    (hr : generateJsDocForMessage fuel t (some m) = .ok r) :
    (f.Label = FieldDescriptorProto_Label.LABEL_REPEATED →
      generateJsDocForField (fuel + 1) t f
        = .ok (docLines f.Doc ++ (if f.Doc = "" then trimLeftSpaces f.Name else f.Name)
            ++ ": "
            ++ ("[" ++ (if f.Note = "" then "// type:<list<" ++ m.Name ++ ">>" else " " ++ f.Note)
                ++ "\n" ++ r ++ "]")
            ++ ",\n"))
    ∧ (f.Label ≠ FieldDescriptorProto_Label.LABEL_REPEATED → f.KeyType ≠ "" →
      generateJsDocForField (fuel + 1) t f
        = .ok (docLines f.Doc ++ (if f.Doc = "" then trimLeftSpaces f.Name else f.Name)
            ++ ": "
            ++ ("\x7b"
                ++ (if f.Note = "" then
                      "// type:<map<" ++ getType f.KeyType ++ "," ++ m.Name ++ ">>"
                    else " " ++ f.Note)
                ++ "\n" ++ "\"" ++ getTypeValue f.KeyType ++ "\"" ++ ":" ++ r ++ "\x7d")
            ++ ",\n")) := by
  rw [generateJsDocForField_message fuel t f n hty, hm, hr]
  constructor
  · intro hrep
    by_cases hn : f.Note = "" <;>
      simp [messageValue, isRepeated_true f hrep, hn, String.append_assoc]
  · intro hrep hk
    by_cases hn : f.Note = "" <;>
      simp [messageValue, isRepeated_false f hrep, hk, hn, String.append_assoc]

/-- C10 witness: a repeated field and a map field of the message type `pkg.M`. -/
theorem message_collection_value_witness :
    generateJsDocForField 1 exampleIndex
        ⟨"items", ".pkg.M", "", "", "", FieldDescriptorProto_Label.LABEL_REPEATED⟩
      = .ok "items: [// type:<list<M>>\n\x7b\n\x7d],\n"
    ∧ generateJsDocForField 1 exampleIndex
        ⟨"byId", ".pkg.M", "TYPE_INT32", "by id", "", FieldDescriptorProto_Label.zero⟩
      = .ok "byId: \x7b by id\n\"0\":\x7b\n\x7d\x7d,\n" :=
  ⟨((message_collection_value 0 exampleIndex
      ⟨"items", ".pkg.M", "", "", "", FieldDescriptorProto_Label.LABEL_REPEATED⟩
      "pkg.M" ⟨"M", [], FieldDescriptorProto_Label.zero, ""⟩ "\x7b\n\x7d" rfl rfl rfl).1
      rfl).trans (by decide),
   ((message_collection_value 0 exampleIndex
      ⟨"byId", ".pkg.M", "TYPE_INT32", "by id", "", FieldDescriptorProto_Label.zero⟩
      "pkg.M" ⟨"M", [], FieldDescriptorProto_Label.zero, ""⟩ "\x7b\n\x7d" rfl rfl rfl).2
      (by decide) (by decide)).trans (by decide)⟩

/-- C10 counterexample: with the note `n` the marker of a repeated message field is a
space followed by the note, not the note verbatim. -/
theorem message_collection_value_counterexample :
    generateJsDocForField 1 exampleIndex
        ⟨"items", ".pkg.M", "", "n", "", FieldDescriptorProto_Label.LABEL_REPEATED⟩
      = .ok "items: [ n\n\x7b\n\x7d],\n"
    ∧ generateJsDocForField 1 exampleIndex
        ⟨"items", ".pkg.M", "", "n", "", FieldDescriptorProto_Label.LABEL_REPEATED⟩
      ≠ .ok ("items" ++ ": " ++ ("[" ++ "n" ++ "\n" ++ "\x7b\n\x7d" ++ "]") ++ "," ++ "\n") := by
  decide


/-! ## Generation: one response file per service -/

/-- C11 (failing input): for one input file `greeter.proto` that declares the two
services `A` and `B` the response holds two files, both named `greeter.md`; a file
without services adds no file. -/
theorem two_services_two_response_files :
    (Generate plainExternal 0 emptyGenerator
        [exampleFile "greeter.proto" [exampleServiceA, exampleServiceB],
         exampleFile "types.proto" []]).map
      (fun files => files.map (fun f => f.Name))
      = .ok ["greeter.md", "greeter.md"] := by
  decide

/-- C12 (failing input): the file name `my.protos/a.proto` becomes `my.mds/a.proto`, the
first `.proto` being replaced and not the suffix; `greeter.proto` becomes `greeter.md`. -/
theorem first_proto_occurrence_replaced :
    stringsReplace "my.protos/a.proto" ".proto" ".md" 1 = "my.mds/a.proto"
    ∧ stringsReplace "my.protos/a.proto" ".proto" ".md" 1 ≠ "my.protos/a" ++ ".md"
    ∧ (Generate plainExternal 0 emptyGenerator
        [exampleFile "my.protos/a.proto" [exampleServiceA]]).map
        (fun files => files.map (fun f => f.Name))
      = .ok ["my.mds/a.proto"]
    ∧ stringsReplace "greeter.proto" ".proto" ".md" 1 = "greeter.md" := by
  decide

set_option maxRecDepth 20000 in
/-- C14 (failing input): for a file that declares the service `A` with the method `Ping`
and then the service `B` with the method `Pong`, the text written for `B` lists two
links and two sections, the method `Ping` of `A` among them (the second response file
holds the text written for `A` followed by the text written for `B`). -/
theorem earlier_methods_in_later_document :
    Generate plainExternal 0 emptyGenerator
        [exampleFile "greeter.proto" [exampleServiceA, exampleServiceB]]
      = .ok
          [⟨"greeter.md",
            "# A\n\n  \n\n- [/pkg.A/Ping](#pkgaping)\n\n"
              ++ "## /pkg.A/Ping\n\n\n\n### Method\n\nPOST\n\n"
              ++ "### Request\n```javascript\n\x7b\n\x7d\n```\n\n"
              ++ "### Reply\n```javascript\n\x7b\n\x7d\n```\n"⟩,
           ⟨"greeter.md",
            ("# A\n\n  \n\n- [/pkg.A/Ping](#pkgaping)\n\n"
              ++ "## /pkg.A/Ping\n\n\n\n### Method\n\nPOST\n\n"
              ++ "### Request\n```javascript\n\x7b\n\x7d\n```\n\n"
              ++ "### Reply\n```javascript\n\x7b\n\x7d\n```\n")
            ++ ("# B\n\n  \n\n- [/pkg.A/Ping](#pkgaping)\n- [/pkg.B/Pong](#pkgbpong)\n\n"
              ++ "## /pkg.A/Ping\n\n\n\n### Method\n\nPOST\n\n"
              ++ "### Request\n```javascript\n\x7b\n\x7d\n```\n\n"
              ++ "### Reply\n```javascript\n\x7b\n\x7d\n```\n"
              ++ "## /pkg.B/Pong\n\n\n\n### Method\n\nPOST\n\n"
              ++ "### Request\n```javascript\n\x7b\n\x7d\n```\n\n"
              ++ "### Reply\n```javascript\n\x7b\n\x7d\n```\n")⟩] := by
  decide

/-- C20 (failing input): for a request with the files `a.proto` (service `A`) and
`b.proto` (service `B`), the content of `b.md` begins with the whole content of `a.md`:
the output buffer is not reset between the files. -/
theorem output_buffer_not_reset :
    Generate plainExternal 0 emptyGenerator
        [exampleFile "a.proto" [⟨"A", "pkg.A", "", []⟩],
         exampleFile "b.proto" [⟨"B", "pkg.B", "", []⟩]]
      = .ok [⟨"a.md", "# A\n\n  \n\n\n"⟩,
             ⟨"b.md", "# A\n\n  \n\n\n" ++ "# B\n\n  \n\n\n"⟩] := by
  decide

/-! ## Registration order -/

/-- C17 (failing input): in `shape.proto` the nested message `Part` has a field of the
enum `Kind` declared in its enclosing message `Shape`.  The first scan stores the field
with the type name `.pkg.Shape.Kind` (the enum is registered after the nested message is
scanned), the second scan stores it as `TYPE_ENUM` with the enum doc: the message index
after two scans differs from the index after one. -/
theorem rescan_changes_index :
    (scanMessages emptyGenerator exampleShapeFile).messages "pkg.Shape.Part"
        = some ⟨"Part",
            [⟨"kind", ".pkg.Shape.Kind", "", "", "", FieldDescriptorProto_Label.LABEL_OPTIONAL⟩],
            FieldDescriptorProto_Label.zero, ""⟩
    ∧ (scanMessages (scanMessages emptyGenerator exampleShapeFile) exampleShapeFile).messages
          "pkg.Shape.Part"
        = some ⟨"Part",
            [⟨"kind", "TYPE_ENUM", "", "", "ROUND(=0) no corners",
              FieldDescriptorProto_Label.LABEL_OPTIONAL⟩],
            FieldDescriptorProto_Label.zero, ""⟩
    ∧ (scanMessages (scanMessages emptyGenerator exampleShapeFile) exampleShapeFile).messages
        ≠ (scanMessages emptyGenerator exampleShapeFile).messages := by
  refine ⟨by decide, by decide, fun h => ?_⟩
  have h' := congrFun h "pkg.Shape.Part"
  revert h'
  decide

/-! ## Map fields with enum values -/

/-- C19 (failing input): the field `map<string, Color> shades` of `Palette`, with the
enum `Color` registered, is stored with the type name `.pkg.Color` of the value (not
`TYPE_ENUM`, and with the doc of the field, not of the enum); rendering the stored field
ends in a nil dereference, for every fuel that lets the rendering start. -/
theorem map_of_enum_field_panics (fuel : Nat) :
    (scanMessage (scanEnum emptyGenerator exampleColor) examplePalette).messages "pkg.Palette"
        = some ⟨"Palette",
            [⟨"shades", ".pkg.Color", "TYPE_STRING", "", "", FieldDescriptorProto_Label.zero⟩],
            FieldDescriptorProto_Label.zero, ""⟩
    ∧ generateJsDocForField (fuel + 1)
          (scanMessage (scanEnum emptyGenerator exampleColor) examplePalette)
          ⟨"shades", ".pkg.Color", "TYPE_STRING", "", "", FieldDescriptorProto_Label.zero⟩
        = .error Fault.nilDereference
    ∧ generateJsDocForMessage (fuel + 1)
          (scanMessage (scanEnum emptyGenerator exampleColor) examplePalette)
          ((scanMessage (scanEnum emptyGenerator exampleColor) examplePalette).messages
            "pkg.Palette")
        = .error Fault.nilDereference :=
  have hf := (unresolved_message_field fuel
    (scanMessage (scanEnum emptyGenerator exampleColor) examplePalette)
    ⟨"shades", ".pkg.Color", "TYPE_STRING", "", "", FieldDescriptorProto_Label.zero⟩
    "pkg.Color" rfl (by decide)).1 (Or.inr (by decide))
  ⟨by decide, hf, by
    have hm : (scanMessage (scanEnum emptyGenerator exampleColor) examplePalette).messages
        "pkg.Palette"
        = some ⟨"Palette",
            [⟨"shades", ".pkg.Color", "TYPE_STRING", "", "", FieldDescriptorProto_Label.zero⟩],
            FieldDescriptorProto_Label.zero, ""⟩ := by decide
    rw [hm, generateJsDocForMessage_some]
    simp only [renderFields, hf]⟩

/-! ## Paths and anchors -/

theorem replaceScan_remove (c : Char) (l : List Char) :
    replaceScan [c] [] 0 none l = l.filter (fun x => x ≠ c) := by
  induction l with
  | nil => rfl
  | cons x xs ih =>
    by_cases h : c = x
    · subst h
      simp [replaceScan, List.isPrefixOf, ih]
    · have h' : ¬ x = c := fun e => h e.symm
      simp [replaceScan, List.isPrefixOf, ih, h, h']

theorem stringsReplace_slash (s : String) :
    stringsReplace s "/" "" (-1) = ⟨s.data.filter (fun x => x ≠ '/')⟩ := by
  have h : ¬ (("/" : String) = "" ∨ (-1 : Int) = 0 ∨ ("/" : String) = "") := by decide
  unfold stringsReplace
  rw [if_neg h]
  exact congrArg String.mk (replaceScan_remove '/' s.data)

theorem stringsReplace_dot (s : String) :
    stringsReplace s "." "" (-1) = ⟨s.data.filter (fun x => x ≠ '.')⟩ := by
  have h : ¬ (("." : String) = "" ∨ (-1 : Int) = 0 ∨ ("." : String) = "") := by decide
  unfold stringsReplace
  rw [if_neg h]
  exact congrArg String.mk (replaceScan_remove '.' s.data)

/-- The anchor of a path: the slashes and dots are removed, the rest is lower-cased. -/
theorem anchor_eq (ext : External) (path : String) :
    anchor ext path
      = ⟨((path.data.filter (fun x => x ≠ '/')).filter (fun x => x ≠ '.')).map
          (toLowerRune ext)⟩ := by
  simp only [anchor, stringsReplace_slash, stringsReplace_dot, stringsToLower]

theorem ascii_lower_table :
    ∀ n : Fin 128,
      (if 'A' ≤ Char.ofNat n ∧ Char.ofNat n ≤ 'Z' then Char.ofNat ((Char.ofNat n).toNat + 32)
        else Char.ofNat n) ≠ '/' ∨ Char.ofNat n = '/' := by
  decide

theorem ascii_lower_fin :
    ∀ n : Fin 128,
      ((if 'A' ≤ Char.ofNat n ∧ Char.ofNat n ≤ 'Z' then Char.ofNat ((Char.ofNat n).toNat + 32)
          else Char.ofNat n) = '/' → Char.ofNat n = '/')
      ∧ ((if 'A' ≤ Char.ofNat n ∧ Char.ofNat n ≤ 'Z' then
            Char.ofNat ((Char.ofNat n).toNat + 32)
          else Char.ofNat n) = '.' → Char.ofNat n = '.')
      ∧ ¬ ('A' ≤ (if 'A' ≤ Char.ofNat n ∧ Char.ofNat n ≤ 'Z' then
            Char.ofNat ((Char.ofNat n).toNat + 32)
          else Char.ofNat n)
          ∧ (if 'A' ≤ Char.ofNat n ∧ Char.ofNat n ≤ 'Z' then
            Char.ofNat ((Char.ofNat n).toNat + 32)
          else Char.ofNat n) ≤ 'Z') := by
  decide

/-- Lower-casing an ASCII rune gives no slash, dot or capital that was not there. -/
theorem toLowerRune_ascii (ext : External) (c : Char) (hc : c.val < 128) :
    (toLowerRune ext c = '/' → c = '/') ∧ (toLowerRune ext c = '.' → c = '.')
      ∧ ¬ ('A' ≤ toLowerRune ext c ∧ toLowerRune ext c ≤ 'Z') := by
  have hn : c.toNat < 128 := hc
  have h := ascii_lower_fin ⟨c.toNat, hn⟩
  simp only [Char.ofNat_toNat] at h
  unfold toLowerRune
  rw [if_pos hc]
  exact h

/-- The anchor holds no slash, no dot and no capital `A`..`Z`, given that the case table
maps no rune outside ASCII to one of them. -/
theorem anchor_chars (ext : External) (path : String)
    (hext : ∀ c : Char, ¬ c.val < 128 →
      ext.ToLower c ≠ '/' ∧ ext.ToLower c ≠ '.'
        ∧ ¬ ('A' ≤ ext.ToLower c ∧ ext.ToLower c ≤ 'Z')) :
    ∀ x ∈ (anchor ext path).data, x ≠ '/' ∧ x ≠ '.' ∧ ¬ ('A' ≤ x ∧ x ≤ 'Z') := by
  intro x hx
  rw [anchor_eq] at hx
  simp only [List.mem_map, List.mem_filter, decide_eq_true_eq] at hx
  obtain ⟨c, ⟨⟨_, h1⟩, h2⟩, rfl⟩ := hx
  by_cases hc : c.val < 128
  · obtain ⟨a, b, d⟩ := toLowerRune_ascii ext c hc
    exact ⟨fun e => h1 (a e), fun e => h2 (b e), d⟩
  · have := hext c hc
    unfold toLowerRune
    rw [if_neg hc]
    exact this

theorem scanMethods_ok (d : ServiceDescriptor) (mds : List MethodDescriptor) (t : twirp)
    (h : ∀ md ∈ mds, md.InputType ≠ "" ∧ md.OutputType ≠ "") :
    scanMethods d t mds
      = .ok { t with apis := (t.apis ++ mds.map (fun md =>
          methodApi t d md ⟨md.InputType.data.drop 1⟩ ⟨md.OutputType.data.drop 1⟩)) } := by
  induction mds generalizing t with
  | nil => simp [scanMethods]
  | cons md mds ih =>
    obtain ⟨hi, ho⟩ := h md (List.mem_cons_self _ _)
    have hi' : ∃ c cs, md.InputType.data = c :: cs := by
      cases hd : md.InputType.data with
      | nil => exact absurd (String.ext hd) hi
      | cons c cs => exact ⟨c, cs, rfl⟩
    have ho' : ∃ c cs, md.OutputType.data = c :: cs := by
      cases hd : md.OutputType.data with
      | nil => exact absurd (String.ext hd) ho
      | cons c cs => exact ⟨c, cs, rfl⟩
    obtain ⟨c, cs, hc⟩ := hi'
    obtain ⟨c', cs', hc'⟩ := ho'
    rw [scanMethods]
    simp only [scanMethod, hc, hc']
    rw [ih _ (fun m hm => h m (List.mem_cons_of_mem _ hm))]
    simp [methodApi, hc, hc']

theorem P_eq (t : twirp) (args : List String) :
    P t args = { t with output := t.output ++ String.join args ++ "\n" } := by
  simp [P, join_foldl]

theorem foldl_output {α : Type} (step : twirp → α → twirp) (g : α → String)
    (hstep : ∀ u a, step u a = { u with output := u.output ++ g a }) (l : List α)
    (u : twirp) :
    l.foldl step u = { u with output := u.output ++ String.join (l.map g) } := by
  induction l generalizing u with
  | nil => simp [String.join]
  | cons a l ih =>
    rw [List.foldl_cons, hstep, ih]
    simp [join_cons, String.append_assoc]

/-- The layout of the text that `generateDoc` appends to the output buffer. -/
theorem generateDoc_output (ext : External) (t : twirp) :
    generateDoc ext t
      = { t with output := t.output
          ++ ("# " ++ t.name ++ "\n" ++ "\n"
            ++ String.join ((stringsSplit t.comments '\n').map (fun v => v ++ "  " ++ "\n"))
            ++ "\n"
            ++ String.join (t.apis.map
                (fun a => "- [" ++ a.Path ++ "](#" ++ anchor ext a.Path ++ ")" ++ "\n"))
            ++ "\n"
            ++ String.join (t.apis.map
                (fun a => "## " ++ a.Path ++ "\n" ++ "\n" ++ a.Doc ++ "\n" ++ "\n"
                  ++ "### Method" ++ "\n" ++ "\n" ++ a.Method ++ "\n" ++ "\n"
                  ++ "### Request" ++ "\n" ++ "```javascript" ++ "\n"
                  ++ ext.Beautify a.Input ++ "\n" ++ "```" ++ "\n" ++ "\n"
                  ++ "### Reply" ++ "\n" ++ "```javascript" ++ "\n"
                  ++ ext.Beautify a.Output ++ "\n" ++ "```" ++ "\n"))) } := by
  have h1 : ∀ (u : twirp) (v : String),
      P u [v, "  "] = { u with output := u.output ++ (v ++ "  " ++ "\n") } := by
    intro u v
    simp [P_eq, String.join, String.append_assoc]
  have h2 : ∀ (u : twirp) (a : api),
      tocLine ext u a = { u with output := u.output
        ++ ("- [" ++ a.Path ++ "](#" ++ anchor ext a.Path ++ ")" ++ "\n") } := by
    intro u a
    simp [tocLine, P_eq, String.join, String.append_assoc]
  have h3 : ∀ (u : twirp) (a : api),
      apiSection ext u a = { u with output := u.output
        ++ ("## " ++ a.Path ++ "\n" ++ "\n" ++ a.Doc ++ "\n" ++ "\n"
          ++ "### Method" ++ "\n" ++ "\n" ++ a.Method ++ "\n" ++ "\n"
          ++ "### Request" ++ "\n" ++ "```javascript" ++ "\n"
          ++ ext.Beautify a.Input ++ "\n" ++ "```" ++ "\n" ++ "\n"
          ++ "### Reply" ++ "\n" ++ "```javascript" ++ "\n"
          ++ ext.Beautify a.Output ++ "\n" ++ "```" ++ "\n") } := by
    intro u a
    simp [apiSection, P_eq, String.join, String.append_assoc]
  have e1 := foldl_output (fun t value => P t [value, "  "]) _ h1
  have e2 := foldl_output (tocLine ext) _ h2
  have e3 := foldl_output (apiSection ext) _ h3
  simp only [generateDoc, e1, e2, e3]
  simp only [P_eq]
  simp [String.join, String.append_assoc]

theorem scanMethods_types (d : ServiceDescriptor) (mds : List MethodDescriptor)
    (t t' : twirp) (h : scanMethods d t mds = .ok t') :
    ∀ md ∈ mds, md.InputType ≠ "" ∧ md.OutputType ≠ "" := by
  induction mds generalizing t with
  | nil => simp
  | cons md mds ih =>
    rw [scanMethods] at h
    cases hi : md.InputType.data with
    | nil => simp [scanMethod, hi] at h
    | cons c cs =>
      cases ho : md.OutputType.data with
      | nil => simp [scanMethod, hi, ho] at h
      | cons c' cs' =>
        simp only [scanMethod, hi, ho] at h
        intro m hm
        rcases List.mem_cons.mp hm with rfl | hm
        · refine ⟨fun e => ?_, fun e => ?_⟩
          · rw [e] at hi; cases hi
          · rw [e] at ho; cases ho
        · exact ih _ h m hm

/-- C13: `scanService` records, for every method of the service and in declaration order,
the path `<prefix>/<service full name>/<method name>` with the HTTP method `POST` (it
returns whenever no method has an empty input or output type name); `generateDoc` writes
the line `- [<path>](#<anchor>)` for every recorded path, the anchor being the path
without its slashes and dots, lower-cased, so that it holds no slash, no dot and no
capital `A`..`Z`; the anchor of `/Greeter/SayHello` is `greetersayhello`. -/
theorem method_path_and_anchor (ext : External) (t : twirp) (d : ServiceDescriptor) :
    (∀ t', scanService t d = .ok t' →
      t'.apis.map (fun a => (a.Path, a.Method))
        = t.apis.map (fun a => (a.Path, a.Method))
          ++ d.Methods.map
              (fun md => (t.params.pathPrefix ++ "/" ++ d.FullName ++ "/" ++ md.Name, "POST")))
    ∧ ((∀ md ∈ d.Methods, md.InputType ≠ "" ∧ md.OutputType ≠ "") →
        ∃ t', scanService t d = .ok t')
    ∧ (∀ u : twirp, ∃ tail,
        (generateDoc ext u).output
          = u.output
            ++ ("# " ++ u.name ++ "\n" ++ "\n"
              ++ String.join ((stringsSplit u.comments '\n').map (fun v => v ++ "  " ++ "\n"))
              ++ "\n")
            ++ String.join (u.apis.map
                (fun a => "- [" ++ a.Path ++ "](#" ++ anchor ext a.Path ++ ")" ++ "\n"))
            ++ tail)
    ∧ (∀ p, anchor ext p
        = ⟨((p.data.filter (fun x => x ≠ '/')).filter (fun x => x ≠ '.')).map
            (toLowerRune ext)⟩)
    ∧ ((∀ c : Char, ¬ c.val < 128 →
          ext.ToLower c ≠ '/' ∧ ext.ToLower c ≠ '.'
            ∧ ¬ ('A' ≤ ext.ToLower c ∧ ext.ToLower c ≤ 'Z')) →
        ∀ p, ∀ x ∈ (anchor ext p).data, x ≠ '/' ∧ x ≠ '.' ∧ ¬ ('A' ≤ x ∧ x ≤ 'Z'))
    ∧ anchor ext ("" ++ "/" ++ "Greeter" ++ "/" ++ "SayHello") = "greetersayhello" := by
  refine ⟨?_, ?_, ?_, anchor_eq ext, fun hext p => anchor_chars ext p hext, ?_⟩
  · intro t' h
    have htypes := scanMethods_types d d.Methods _ t' h
    unfold scanService at h
    rw [scanMethods_ok d d.Methods _ htypes] at h
    cases h
    simp [methodApi]
  · intro htypes
    exact ⟨_, scanMethods_ok d d.Methods _ htypes⟩
  · intro u
    rw [generateDoc_output]
    refine ⟨"\n" ++ String.join (u.apis.map
      (fun a => "## " ++ a.Path ++ "\n" ++ "\n" ++ a.Doc ++ "\n" ++ "\n"
        ++ "### Method" ++ "\n" ++ "\n" ++ a.Method ++ "\n" ++ "\n"
        ++ "### Request" ++ "\n" ++ "```javascript" ++ "\n"
        ++ ext.Beautify a.Input ++ "\n" ++ "```" ++ "\n" ++ "\n"
        ++ "### Reply" ++ "\n" ++ "```javascript" ++ "\n"
        ++ ext.Beautify a.Output ++ "\n" ++ "```" ++ "\n")), ?_⟩
    simp only [String.append_assoc]
  · rw [anchor_eq]
    rfl

/-- C13 witness: the service `Greeter` with the method `SayHello`, under the prefix
`/twirp`. -/
theorem method_path_and_anchor_witness :
    ∃ t', scanService (newGenerator ⟨"/twirp", GoMap.empty⟩)
        ⟨"Greeter", "pkg.Greeter", "", [⟨"SayHello", "pkg.Greeter.SayHello", ".pkg.HelloRequest",
          ".pkg.HelloReply", ""⟩]⟩ = .ok t'
      ∧ t'.apis.map (fun a => (a.Path, a.Method)) = [("/twirp/pkg.Greeter/SayHello", "POST")]
      ∧ anchor plainExternal "/twirp/pkg.Greeter/SayHello" = "twirppkggreetersayhello"
      ∧ ∀ x ∈ (anchor plainExternal "/twirp/pkg.Greeter/SayHello").data,
          x ≠ '/' ∧ x ≠ '.' ∧ ¬ ('A' ≤ x ∧ x ≤ 'Z') :=
  have h := method_path_and_anchor plainExternal (newGenerator ⟨"/twirp", GoMap.empty⟩)
    ⟨"Greeter", "pkg.Greeter", "", [⟨"SayHello", "pkg.Greeter.SayHello", ".pkg.HelloRequest",
      ".pkg.HelloReply", ""⟩]⟩
  let ⟨t', ht'⟩ := h.2.1 (by decide)
  ⟨t', ht', h.1 t' ht', by decide,
    h.2.2.2.2.1 (fun c hc => by
      have h1 : c ≠ '/' := fun e => hc (by rw [e]; decide)
      have h2 : c ≠ '.' := fun e => hc (by rw [e]; decide)
      refine ⟨h1, h2, fun hz => hc ?_⟩
      have hle : c.val.toNat ≤ 90 := hz.2
      exact Nat.lt_of_le_of_lt hle (by decide)) _⟩

/-! ## Command-line parameters -/

theorem stringsIndex_none (l : List Char) (c : Char) :
    stringsIndex l c = none ↔ c ∉ l := by
  induction l with
  | nil => simp [stringsIndex]
  | cons x xs ih =>
    by_cases h : x = c
    · simp [stringsIndex, h]
    · have h' : ¬ c = x := fun e => h e.symm
      simp [stringsIndex, h, h', ih]

theorem stringsIndex_some (l : List Char) (c : Char) (i : Nat)
    (h : stringsIndex l c = some i) :
    l.take i = l.takeWhile (fun x => x ≠ c)
      ∧ l.drop (i + 1) = (l.dropWhile (fun x => x ≠ c)).drop 1 := by
  induction l generalizing i with
  | nil => simp [stringsIndex] at h
  | cons x xs ih =>
    by_cases hx : x = c
    · simp [stringsIndex, hx] at h
      subst h
      simp [hx, List.takeWhile, List.dropWhile]
    · simp only [stringsIndex, hx, if_false, Option.map_eq_some'] at h
      obtain ⟨j, hj, rfl⟩ := h
      obtain ⟨h1, h2⟩ := ih j hj
      simp [List.takeWhile, List.dropWhile, hx, h1, h2]

theorem collectParams_error (toks : List String) (ps : List (String × String))
    (h : ∃ p ∈ toks, p ≠ "" ∧ malformed p) : ∃ e, collectParams ps toks = .error e := by
  induction toks generalizing ps with
  | nil => simp at h
  | cons q rest ih =>
    rw [collectParams]
    by_cases hq : q = ""
    · rw [if_pos hq]
      apply ih
      obtain ⟨p, hp, hne, hbad⟩ := h
      rcases List.mem_cons.mp hp with rfl | hp
      · exact absurd hq hne
      · exact ⟨p, hp, hne, hbad⟩
    · rw [if_neg hq]
      cases hi : stringsIndex q.data '=' with
      | none => exact ⟨_, rfl⟩
      | some i =>
        obtain ⟨h1, h2⟩ := stringsIndex_some _ _ _ hi
        by_cases hv : (⟨q.data.drop (i + 1)⟩ : String) = ""
        · simp only [hv, if_true]
          exact ⟨_, rfl⟩
        · simp only [hv, if_false]
          apply ih
          obtain ⟨p, hp, hne, hbad⟩ := h
          rcases List.mem_cons.mp hp with rfl | hp
          · exfalso
            rcases hbad with hb | hb
            · exact absurd ((stringsIndex_none _ _).mpr hb) (by simp [hi])
            · apply hv
              rw [h2]
              exact hb
          · exact ⟨p, hp, hne, hbad⟩

theorem collectParams_ok (toks : List String) (ps : List (String × String))
    (h : ∀ p ∈ toks, p ≠ "" → ¬ malformed p) :
    collectParams ps toks
      = .ok ((toks.filter (fun p => p ≠ "")).foldl
          (fun ps p => entriesSet ps (tokenKey p) (tokenValue p)) ps) := by
  induction toks generalizing ps with
  | nil => simp [collectParams]
  | cons q rest ih =>
    rw [collectParams]
    by_cases hq : q = ""
    · rw [if_pos hq, ih _ (fun p hp => h p (List.mem_cons_of_mem _ hp))]
      simp [hq]
    · rw [if_neg hq]
      have hgood := h q (List.mem_cons_self _ _) hq
      cases hi : stringsIndex q.data '=' with
      | none => exact absurd (Or.inl ((stringsIndex_none _ _).mp hi)) hgood
      | some i =>
        obtain ⟨h1, h2⟩ := stringsIndex_some _ _ _ hi
        have hv : ¬ (⟨q.data.drop (i + 1)⟩ : String) = "" := by
          intro hv
          apply hgood
          right
          show (⟨(q.data.dropWhile (fun c => c ≠ '=')).drop 1⟩ : String) = ""
          rw [← h2]
          exact hv
        simp only [hv, if_false]
        rw [ih _ (fun p hp => h p (List.mem_cons_of_mem _ hp))]
        simp [hq, tokenKey, tokenValue, h1, h2]

theorem hasPrefix_iff (k : String) :
    (k.data ≠ [] ∧ stringsHasPrefix k "go_import_mapping@" = true)
      ↔ "go_import_mapping@".data <+: k.data := by
  unfold stringsHasPrefix
  rw [List.isPrefixOf_iff_prefix]
  constructor
  · exact fun h => h.2
  · intro h
    refine ⟨?_, h⟩
    obtain ⟨t, ht⟩ := h
    intro e
    rw [e] at ht
    simp at ht

theorem applyParam_err (st : commandLineParams × Option ParamError) (kv : String × String) :
    (applyParam st kv).2 = none ↔ st.2 = none ∧ recognized kv.1 := by
  unfold applyParam recognized
  by_cases h1 : kv.1 = "path_prefix"
  · simp [h1]
  · by_cases h2 : kv.1.data.head? = some 'M'
    · simp [h1, h2]
    · by_cases h3 : kv.1.data ≠ [] ∧ stringsHasPrefix kv.1 "go_import_mapping@" = true
      · have := (hasPrefix_iff kv.1).mp h3
        simp only [if_neg h1, if_neg h2, if_pos h3]
        simp [this]
      · have : ¬ "go_import_mapping@".data <+: kv.1.data :=
          fun e => h3 ((hasPrefix_iff kv.1).mpr e)
        simp only [if_neg h1, if_neg h2, if_neg h3]
        simp [h1, h2, this]

theorem foldl_applyParam_err (es : List (String × String))
    (st : commandLineParams × Option ParamError) :
    (es.foldl applyParam st).2 = none ↔ st.2 = none ∧ ∀ kv ∈ es, recognized kv.1 := by
  induction es generalizing st with
  | nil => simp
  | cons kv es ih =>
    rw [List.foldl_cons, ih, applyParam_err]
    simp only [List.mem_cons, forall_eq_or_imp, and_assoc]

theorem entriesSet_keys (ps : List (String × String)) (k v k' : String) :
    k' ∈ (entriesSet ps k v).map Prod.fst ↔ k' = k ∨ k' ∈ ps.map Prod.fst := by
  induction ps with
  | nil => simp [entriesSet]
  | cons kv ps ih =>
    obtain ⟨a, b⟩ := kv
    by_cases h : a = k
    · subst h
      simp [entriesSet]
    · simp only [entriesSet, h, if_false, List.map_cons, List.mem_cons, ih]
      tauto

theorem foldl_entriesSet_keys (toks : List String) (ps : List (String × String))
    (k' : String) :
    k' ∈ (toks.foldl (fun ps p => entriesSet ps (tokenKey p) (tokenValue p)) ps).map Prod.fst
      ↔ k' ∈ ps.map Prod.fst ∨ ∃ p ∈ toks, tokenKey p = k' := by
  induction toks generalizing ps with
  | nil => simp
  | cons q rest ih =>
    rw [List.foldl_cons, ih, entriesSet_keys]
    simp only [List.mem_cons, exists_eq_or_imp]
    constructor
    · rintro ((h | h) | h)
      · exact Or.inr (Or.inl h.symm)
      · exact Or.inl h
      · exact Or.inr (Or.inr h)
    · rintro (h | h | h)
      · exact Or.inl (Or.inr h)
      · exact Or.inl (Or.inl h.symm)
      · exact Or.inr h

/-- C15: `parseCommandLineParams` returns an error exactly when some non-empty token of
the comma-separated parameter string holds no `=`, or has nothing after its first `=`, or
has a key that is not `path_prefix`, does not begin with `M` and does not begin with
`go_import_mapping@`; this holds for every order in which Go ranges over the map. -/
theorem parse_error_iff (range : List (String × String) → List (String × String))
    (hrange : ∀ l, (range l).Perm l) (parameter : String) :
    (parseCommandLineParams range parameter).2 ≠ none
      ↔ ∃ p ∈ stringsSplit parameter ',', p ≠ ""
          ∧ ('=' ∉ p.data ∨ tokenValue p = ""
            ∨ (tokenKey p ≠ "path_prefix" ∧ (tokenKey p).data.head? ≠ some 'M'
              ∧ ¬ "go_import_mapping@".data <+: (tokenKey p).data)) := by
  unfold parseCommandLineParams
  by_cases hbad : ∃ p ∈ stringsSplit parameter ',', p ≠ "" ∧ malformed p
  · obtain ⟨e, he⟩ := collectParams_error _ [] hbad
    rw [he]
    obtain ⟨p, hp, hne, hm⟩ := hbad
    refine ⟨fun _ => ⟨p, hp, hne, ?_⟩, fun _ => by simp⟩
    rcases hm with h | h
    · exact Or.inl h
    · exact Or.inr (Or.inl h)
  · have hgood : ∀ p ∈ stringsSplit parameter ',', p ≠ "" → ¬ malformed p :=
      fun p hp hne hm => hbad ⟨p, hp, hne, hm⟩
    rw [collectParams_ok _ [] hgood]
    simp only [ne_eq, foldl_applyParam_err, true_and, not_forall]
    constructor
    · rintro ⟨kv, hkv, hun⟩
      have hkv' := (hrange _).mem_iff.mp hkv
      have hk : kv.1 ∈ List.map Prod.fst
          (List.foldl (fun ps p => entriesSet ps (tokenKey p) (tokenValue p)) []
            (List.filter (fun p => p ≠ "") (stringsSplit parameter ','))) :=
        List.mem_map_of_mem _ hkv'
      rw [foldl_entriesSet_keys] at hk
      rcases hk with hk | ⟨p, hp, hpk⟩
      · simp at hk
      · rw [List.mem_filter] at hp
        refine ⟨p, hp.1, by simpa using hp.2, Or.inr (Or.inr ?_)⟩
        rw [hpk]
        unfold recognized at hun
        tauto
    · rintro ⟨p, hp, hne, h⟩
      have hnm := hgood p hp hne
      have hun : tokenKey p ≠ "path_prefix" ∧ (tokenKey p).data.head? ≠ some 'M'
          ∧ ¬ "go_import_mapping@".data <+: (tokenKey p).data := by
        rcases h with h | h | h
        · exact absurd (Or.inl h) hnm
        · exact absurd (Or.inr h) hnm
        · exact h
      have hk : tokenKey p ∈ List.map Prod.fst
          (List.foldl (fun ps p => entriesSet ps (tokenKey p) (tokenValue p)) []
            (List.filter (fun p => p ≠ "") (stringsSplit parameter ','))) := by
        rw [foldl_entriesSet_keys]
        exact Or.inr ⟨p, List.mem_filter.mpr ⟨hp, by simpa using hne⟩, rfl⟩
      obtain ⟨kv, hkv, hkey⟩ := List.mem_map.mp hk
      refine ⟨kv, (hrange _).mem_iff.mpr hkv, ?_⟩
      unfold recognized
      rw [hkey]
      tauto

/-- C15 witness: the token `verbose=1` has an unknown key, the empty token between the
two commas is skipped; of the parameter `,,` nothing is left to reject. -/
theorem parse_error_iff_witness :
    (parseCommandLineParams (fun l => l) "path_prefix=/api,,verbose=1").2 ≠ none
      ∧ ¬ (parseCommandLineParams (fun l => l) ",,").2 ≠ none :=
  ⟨(parse_error_iff (fun l => l) (fun l => List.Perm.refl l) "path_prefix=/api,,verbose=1").mpr
      ⟨"verbose=1", by decide, by decide, Or.inr (Or.inr (by decide))⟩,
   fun h =>
    let ⟨p, hp, hne, _⟩ :=
      (parse_error_iff (fun l => l) (fun l => List.Perm.refl l) ",,").mp h
    absurd hp (by revert hne; revert p; decide)⟩

theorem importKeyOf_iff (k n : String) :
    importKeyOf k = some n ↔ k = "M" ++ n ∨ k = "go_import_mapping@" ++ n := by
  unfold importKeyOf
  constructor
  · intro h
    by_cases h1 : k = "path_prefix"
    · simp [h1] at h
    · rw [if_neg h1] at h
      by_cases h2 : k.data.head? = some 'M'
      · rw [if_pos h2] at h
        left
        cases hk : k.data with
        | nil => simp [hk] at h2
        | cons c cs =>
          simp only [hk, List.head?_cons, Option.some.injEq] at h2
          simp only [hk, List.drop_succ_cons, List.drop_zero, Option.some.injEq] at h
          apply String.ext
          rw [hk, h2, ← h]
          rfl
      · rw [if_neg h2] at h
        by_cases h3 : k.data ≠ [] ∧ stringsHasPrefix k "go_import_mapping@" = true
        · rw [if_pos h3] at h
          right
          obtain ⟨t, ht⟩ := (hasPrefix_iff k).mp h3
          simp only [Option.some.injEq] at h
          apply String.ext
          rw [← h, ← ht]
          simp [String.data_append]
        · rw [if_neg h3] at h
          cases h
  · rintro (rfl | rfl)
    · have h1 : ¬ ("M" ++ n = "path_prefix") := fun e => by
        have := congrArg (fun s : String => s.data.head?) e
        simp [String.data_append] at this
      have h2 : ("M" ++ n).data.head? = some 'M' := by simp [String.data_append]
      rw [if_neg h1, if_pos h2]
      simp [String.data_append]
    · have h1 : ¬ ("go_import_mapping@" ++ n = "path_prefix") := fun e => by
        have := congrArg (fun s : String => s.data.head?) e
        simp [String.data_append] at this
      have h2 : ¬ ("go_import_mapping@" ++ n).data.head? = some 'M' := by
        simp [String.data_append]
      have h3 : ("go_import_mapping@" ++ n).data ≠ []
          ∧ stringsHasPrefix ("go_import_mapping@" ++ n) "go_import_mapping@" = true :=
        (hasPrefix_iff _).mpr ⟨n.data, by simp [String.data_append]⟩
      rw [if_neg h1, if_neg h2, if_pos h3]
      simp [String.data_append]

theorem applyParam_importMap (st : commandLineParams × Option ParamError)
    (kv : String × String) :
    (applyParam st kv).1.importMap
      = match importKeyOf kv.1 with
        | some n => st.1.importMap.set n kv.2
        | none => st.1.importMap := by
  unfold applyParam importKeyOf
  by_cases h1 : kv.1 = "path_prefix"
  · simp [h1]
  · by_cases h2 : kv.1.data.head? = some 'M'
    · simp [h1, h2]
    · by_cases h3 : kv.1.data ≠ [] ∧ stringsHasPrefix kv.1 "go_import_mapping@" = true
      · simp only [if_neg h1, if_neg h2, if_pos h3]
      · simp only [if_neg h1, if_neg h2, if_neg h3]

theorem applyParam_pathPrefix (st : commandLineParams × Option ParamError)
    (kv : String × String) :
    (applyParam st kv).1.pathPrefix
      = if kv.1 = "path_prefix" then kv.2 else st.1.pathPrefix := by
  unfold applyParam
  by_cases h1 : kv.1 = "path_prefix"
  · simp [h1]
  · by_cases h2 : kv.1.data.head? = some 'M'
    · simp [h1, h2]
    · by_cases h3 : kv.1.data ≠ [] ∧ stringsHasPrefix kv.1 "go_import_mapping@" = true
      · simp only [if_neg h1, if_neg h2, if_pos h3]
      · simp only [if_neg h1, if_neg h2, if_neg h3]

theorem foldl_pathPrefix_absent (es : List (String × String))
    (st : commandLineParams × Option ParamError)
    (h : ∀ kv ∈ es, kv.1 ≠ "path_prefix") :
    (es.foldl applyParam st).1.pathPrefix = st.1.pathPrefix := by
  induction es generalizing st with
  | nil => rfl
  | cons kv es ih =>
    rw [List.foldl_cons, ih _ (fun x hx => h x (List.mem_cons_of_mem _ hx)),
      applyParam_pathPrefix, if_neg (h kv (List.mem_cons_self _ _))]

theorem foldl_pathPrefix_present (es : List (String × String))
    (st : commandLineParams × Option ParamError) (v : String)
    (hmem : ("path_prefix", v) ∈ es)
    (huniq : ∀ kv ∈ es, kv.1 = "path_prefix" → kv.2 = v) :
    (es.foldl applyParam st).1.pathPrefix = v := by
  induction es generalizing st with
  | nil => simp at hmem
  | cons kv es ih =>
    rw [List.foldl_cons]
    by_cases hin : ("path_prefix", v) ∈ es
    · exact ih _ hin (fun x hx => huniq x (List.mem_cons_of_mem _ hx))
    · have hkv : kv = ("path_prefix", v) := by
        rcases List.mem_cons.mp hmem with h | h
        · exact h.symm
        · exact absurd h hin
      have hrest : ∀ x ∈ es, x.1 ≠ "path_prefix" := by
        intro x hx hk
        have := huniq x (List.mem_cons_of_mem _ hx) hk
        apply hin
        have hx' : x = ("path_prefix", v) := Prod.ext hk this
        rw [← hx']
        exact hx
      rw [foldl_pathPrefix_absent es _ hrest, applyParam_pathPrefix, hkv]
      simp

theorem foldl_importMap_absent (es : List (String × String))
    (st : commandLineParams × Option ParamError) (n : String)
    (h : ∀ kv ∈ es, importKeyOf kv.1 ≠ some n) :
    (es.foldl applyParam st).1.importMap n = st.1.importMap n := by
  induction es generalizing st with
  | nil => rfl
  | cons kv es ih =>
    rw [List.foldl_cons, ih _ (fun x hx => h x (List.mem_cons_of_mem _ hx)),
      applyParam_importMap]
    have hkv := h kv (List.mem_cons_self _ _)
    cases hk : importKeyOf kv.1 with
    | none => rfl
    | some m =>
      have hne : n ≠ m := fun e => hkv (by rw [hk, e])
      simp [GoMap.set, hne]

theorem foldl_importMap_source (es : List (String × String))
    (st : commandLineParams × Option ParamError) (n v : String)
    (h : (es.foldl applyParam st).1.importMap n = some v) :
    st.1.importMap n = some v ∨ ∃ kv ∈ es, importKeyOf kv.1 = some n ∧ kv.2 = v := by
  induction es generalizing st with
  | nil => exact Or.inl h
  | cons kv es ih =>
    rw [List.foldl_cons] at h
    rcases ih _ h with h' | ⟨x, hx, hk, hv⟩
    · rw [applyParam_importMap] at h'
      cases hk : importKeyOf kv.1 with
      | none =>
        rw [hk] at h'
        exact Or.inl h'
      | some m =>
        rw [hk] at h'
        by_cases hnm : n = m
        · simp [GoMap.set, hnm] at h'
          exact Or.inr ⟨kv, List.mem_cons_self _ _, by rw [hk, hnm], h'⟩
        · simp [GoMap.set, hnm] at h'
          exact Or.inl h'
    · exact Or.inr ⟨x, List.mem_cons_of_mem _ hx, hk, hv⟩

theorem foldl_importMap_unique (es : List (String × String))
    (st : commandLineParams × Option ParamError) (n v : String)
    (hmem : ∃ kv ∈ es, importKeyOf kv.1 = some n)
    (huniq : ∀ kv ∈ es, importKeyOf kv.1 = some n → kv.2 = v) :
    (es.foldl applyParam st).1.importMap n = some v := by
  induction es generalizing st with
  | nil => simp at hmem
  | cons kv es ih =>
    rw [List.foldl_cons]
    by_cases hin : ∃ x ∈ es, importKeyOf x.1 = some n
    · exact ih _ hin (fun x hx => huniq x (List.mem_cons_of_mem _ hx))
    · have hkv : importKeyOf kv.1 = some n := by
        obtain ⟨x, hx, hk⟩ := hmem
        rcases List.mem_cons.mp hx with h | h
        · rw [← h]; exact hk
        · exact absurd ⟨x, h, hk⟩ hin
      have hrest : ∀ x ∈ es, importKeyOf x.1 ≠ some n :=
        fun x hx hk => hin ⟨x, hx, hk⟩
      rw [foldl_importMap_absent es _ n hrest, applyParam_importMap, hkv]
      simp [GoMap.set, huniq kv (List.mem_cons_self _ _) hkv]

theorem foldl_importMap_some (es : List (String × String))
    (st : commandLineParams × Option ParamError) (n : String)
    (hmem : ∃ kv ∈ es, importKeyOf kv.1 = some n) :
    (es.foldl applyParam st).1.importMap n ≠ none := by
  induction es generalizing st with
  | nil => simp at hmem
  | cons kv es ih =>
    rw [List.foldl_cons]
    by_cases hin : ∃ x ∈ es, importKeyOf x.1 = some n
    · exact ih _ hin
    · have hkv : importKeyOf kv.1 = some n := by
        obtain ⟨x, hx, hk⟩ := hmem
        rcases List.mem_cons.mp hx with h | h
        · rw [← h]; exact hk
        · exact absurd ⟨x, h, hk⟩ hin
      have hrest : ∀ x ∈ es, importKeyOf x.1 ≠ some n :=
        fun x hx hk => hin ⟨x, hx, hk⟩
      rw [foldl_importMap_absent es _ n hrest, applyParam_importMap, hkv]
      simp [GoMap.set]

theorem entriesSet_nodup (ps : List (String × String)) (k v : String)
    (h : (ps.map Prod.fst).Nodup) : ((entriesSet ps k v).map Prod.fst).Nodup := by
  induction ps with
  | nil => simp [entriesSet]
  | cons kv ps ih =>
    obtain ⟨a, b⟩ := kv
    simp only [List.map_cons, List.nodup_cons] at h
    by_cases hk : a = k
    · subst hk
      simpa [entriesSet] using h
    · simp only [entriesSet, hk, if_false, List.map_cons, List.nodup_cons]
      refine ⟨fun hm => ?_, ih h.2⟩
      rcases (entriesSet_keys ps k v a).mp hm with e | e
      · exact hk e
      · exact h.1 e

theorem entriesSet_mem (ps : List (String × String)) (k v k' v' : String)
    (h : (ps.map Prod.fst).Nodup) :
    (k', v') ∈ entriesSet ps k v ↔ (k' = k ∧ v' = v) ∨ (k' ≠ k ∧ (k', v') ∈ ps) := by
  induction ps with
  | nil => simp [entriesSet]
  | cons kv ps ih =>
    obtain ⟨a, b⟩ := kv
    simp only [List.map_cons, List.nodup_cons] at h
    by_cases hk : a = k
    · subst hk
      simp only [entriesSet, if_true, List.mem_cons, Prod.mk.injEq]
      constructor
      · rintro (h1 | h1)
        · exact Or.inl h1
        · refine Or.inr ⟨fun e => h.1 ?_, Or.inr h1⟩
          rw [← e]
          exact List.mem_map_of_mem Prod.fst h1
      · rintro (h1 | ⟨h1, h2 | h2⟩)
        · exact Or.inl h1
        · exact absurd h2.1 h1
        · exact Or.inr h2
    · simp only [entriesSet, hk, if_false, List.mem_cons, Prod.mk.injEq, ih h.2]
      constructor
      · rintro (⟨rfl, rfl⟩ | h1 | h1)
        · exact Or.inr ⟨hk, Or.inl ⟨rfl, rfl⟩⟩
        · exact Or.inl h1
        · exact Or.inr ⟨h1.1, Or.inr h1.2⟩
      · rintro (h1 | ⟨h1, h2 | h2⟩)
        · exact Or.inr (Or.inl h1)
        · exact Or.inl h2
        · exact Or.inr (Or.inr ⟨h1, h2⟩)

/-- The entries of the map `ps` after the first loop: no key twice, and under each key the
value of the last token with that key. -/
theorem collected_entries (toks : List String) :
    ((toks.foldl (fun ps p => entriesSet ps (tokenKey p) (tokenValue p)) []).map
        Prod.fst).Nodup
      ∧ ∀ k v, (k, v) ∈ toks.foldl (fun ps p => entriesSet ps (tokenKey p) (tokenValue p)) []
          ↔ (toks.reverse.find? (fun p => tokenKey p = k)).map tokenValue = some v := by
  induction toks using List.reverseRecOn with
  | nil => simp
  | append_singleton l p ih =>
    obtain ⟨hnd, hmem⟩ := ih
    rw [List.foldl_append]
    simp only [List.foldl_cons, List.foldl_nil, List.reverse_append, List.reverse_cons,
      List.reverse_nil, List.nil_append, List.singleton_append]
    refine ⟨entriesSet_nodup _ _ _ hnd, fun k v => ?_⟩
    rw [entriesSet_mem _ _ _ _ _ hnd, List.find?_cons]
    by_cases hk : tokenKey p = k
    · subst hk
      simp
      constructor
      · intro h; exact h.symm
      · intro h; exact h.symm
    · have hk' : k ≠ tokenKey p := fun e => hk e.symm
      simp [hk, hk', hmem]

/-- C16 (amended): when `parseCommandLineParams` returns no error, `pathPrefix` is the
value of the last `path_prefix` token (empty if there is none); every entry of
`importMap` comes from a token that is the last with its key, the key being `M` or
`go_import_mapping@` followed by the entry's name; and the last token with the key `M<n>`
(resp. `go_import_mapping@<n>`) sets `importMap[n]` to its value when the parameter holds
no token with the other key for the same `n`.  When it holds both, `importMap[n]` is the
value of one of the two, whichever Go's map iteration reaches last. -/
theorem parse_result (range : List (String × String) → List (String × String))
    (hrange : ∀ l, (range l).Perm l) (parameter : String)
    (hok : (parseCommandLineParams range parameter).2 = none) :
    (parseCommandLineParams range parameter).1.pathPrefix
        = (lastValue parameter "path_prefix").getD ""
    ∧ (∀ n v, (parseCommandLineParams range parameter).1.importMap n = some v →
        lastValue parameter ("M" ++ n) = some v
          ∨ lastValue parameter ("go_import_mapping@" ++ n) = some v)
    ∧ (∀ n v, lastValue parameter ("M" ++ n) = some v →
        lastValue parameter ("go_import_mapping@" ++ n) = none →
        (parseCommandLineParams range parameter).1.importMap n = some v)
    ∧ (∀ n v, lastValue parameter ("go_import_mapping@" ++ n) = some v →
        lastValue parameter ("M" ++ n) = none →
        (parseCommandLineParams range parameter).1.importMap n = some v)
    ∧ (∀ n v w, lastValue parameter ("M" ++ n) = some v →
        lastValue parameter ("go_import_mapping@" ++ n) = some w →
        (parseCommandLineParams range parameter).1.importMap n = some v
          ∨ (parseCommandLineParams range parameter).1.importMap n = some w) := by
  have hgood : ∀ p ∈ stringsSplit parameter ',', p ≠ "" → ¬ malformed p := by
    intro p hp hne hm
    obtain ⟨e, he⟩ := collectParams_error _ [] ⟨p, hp, hne, hm⟩
    simp [parseCommandLineParams, he] at hok
  obtain ⟨-, hmem⟩ :=
    collected_entries ((stringsSplit parameter ',').filter (fun p => p ≠ ""))
  have hlast : ∀ k v,
      (k, v) ∈ range (List.foldl (fun ps p => entriesSet ps (tokenKey p) (tokenValue p)) []
          ((stringsSplit parameter ',').filter (fun p => p ≠ "")))
        ↔ lastValue parameter k = some v := by
    intro k v
    rw [(hrange _).mem_iff, hmem]
    rfl
  have hparse : parseCommandLineParams range parameter
      = (range (List.foldl (fun ps p => entriesSet ps (tokenKey p) (tokenValue p)) []
          ((stringsSplit parameter ',').filter (fun p => p ≠ "")))).foldl applyParam
          ({ pathPrefix := "", importMap := GoMap.empty }, none) := by
    unfold parseCommandLineParams
    rw [collectParams_ok _ [] hgood]
  rw [hparse]
  generalize range (List.foldl (fun ps p => entriesSet ps (tokenKey p) (tokenValue p)) []
      ((stringsSplit parameter ',').filter (fun p => p ≠ ""))) = E at hlast ⊢
  have hsource : ∀ n v,
      (E.foldl applyParam
          ({ pathPrefix := "", importMap := GoMap.empty }, none)).1.importMap n = some v →
        lastValue parameter ("M" ++ n) = some v
          ∨ lastValue parameter ("go_import_mapping@" ++ n) = some v := by
    intro n v h
    rcases foldl_importMap_source _ _ n v h with h' | ⟨kv, hkv, hk, hv⟩
    · simp [GoMap.empty] at h'
    · have hkv' : (kv.1, v) ∈ E := by rw [← hv]; exact hkv
      rcases (importKeyOf_iff _ _).mp hk with e | e
      · left; rw [← e]; exact (hlast _ _).mp hkv'
      · right; rw [← e]; exact (hlast _ _).mp hkv'
  refine ⟨?_, hsource, ?_, ?_, ?_⟩
  · cases hp : lastValue parameter "path_prefix" with
    | none =>
      rw [foldl_pathPrefix_absent]
      · rfl
      · intro kv hkv hk
        have : lastValue parameter "path_prefix" = some kv.2 :=
          (hlast _ _).mp (by rw [← hk]; exact hkv)
        rw [hp] at this
        cases this
    | some v =>
      rw [foldl_pathPrefix_present _ _ v ((hlast _ _).mpr hp)]
      · rfl
      · intro kv hkv hk
        have : lastValue parameter "path_prefix" = some kv.2 :=
          (hlast _ _).mp (by rw [← hk]; exact hkv)
        rw [hp] at this
        exact (Option.some.inj this).symm
  · intro n v hM hgo
    apply foldl_importMap_unique
    · exact ⟨("M" ++ n, v), (hlast _ _).mpr hM, (importKeyOf_iff _ _).mpr (Or.inl rfl)⟩
    · intro kv hkv hk
      rcases (importKeyOf_iff _ _).mp hk with e | e
      · have : lastValue parameter ("M" ++ n) = some kv.2 :=
          (hlast _ _).mp (by rw [← e]; exact hkv)
        rw [hM] at this
        exact (Option.some.inj this).symm
      · have : lastValue parameter ("go_import_mapping@" ++ n) = some kv.2 :=
          (hlast _ _).mp (by rw [← e]; exact hkv)
        rw [hgo] at this
        cases this
  · intro n v hgo hM
    apply foldl_importMap_unique
    · exact ⟨("go_import_mapping@" ++ n, v), (hlast _ _).mpr hgo,
        (importKeyOf_iff _ _).mpr (Or.inr rfl)⟩
    · intro kv hkv hk
      rcases (importKeyOf_iff _ _).mp hk with e | e
      · have : lastValue parameter ("M" ++ n) = some kv.2 :=
          (hlast _ _).mp (by rw [← e]; exact hkv)
        rw [hM] at this
        cases this
      · have : lastValue parameter ("go_import_mapping@" ++ n) = some kv.2 :=
          (hlast _ _).mp (by rw [← e]; exact hkv)
        rw [hgo] at this
        exact (Option.some.inj this).symm
  · intro n v w hM hgo
    have hne := foldl_importMap_some E
      ({ pathPrefix := "", importMap := GoMap.empty }, none) n
      ⟨("M" ++ n, v), (hlast _ _).mpr hM, (importKeyOf_iff _ _).mpr (Or.inl rfl)⟩
    obtain ⟨u, hu⟩ := Option.ne_none_iff_exists'.mp hne
    rcases hsource n u hu with h | h
    · rw [hM] at h
      left; rw [hu, Option.some.inj h]
    · rw [hgo] at h
      right; rw [hu, Option.some.inj h]

/-- C16 witness: a prefix given twice, an `M` mapping given twice and a
`go_import_mapping@` mapping. -/
theorem parse_result_witness :
    (parseCommandLineParams (fun l => l)
        "path_prefix=/v1,Ma.proto=x,,path_prefix=/v2,Ma.proto=y,go_import_mapping@b.proto=z").1.pathPrefix
        = "/v2"
    ∧ (parseCommandLineParams (fun l => l)
        "path_prefix=/v1,Ma.proto=x,,path_prefix=/v2,Ma.proto=y,go_import_mapping@b.proto=z").1.importMap
          "a.proto" = some "y"
    ∧ (parseCommandLineParams (fun l => l)
        "path_prefix=/v1,Ma.proto=x,,path_prefix=/v2,Ma.proto=y,go_import_mapping@b.proto=z").1.importMap
          "b.proto" = some "z" :=
  have h := parse_result (fun l => l) (fun l => List.Perm.refl l)
    "path_prefix=/v1,Ma.proto=x,,path_prefix=/v2,Ma.proto=y,go_import_mapping@b.proto=z"
    (by decide)
  ⟨h.1.trans (by decide), h.2.2.1 "a.proto" "y" (by decide) (by decide),
    h.2.2.2.1 "b.proto" "z" (by decide) (by decide)⟩

/-- C16 counterexample: in `Mfoo=1,go_import_mapping@foo=2` each token is the last with
its key and no error is returned, yet `importMap["foo"]` holds one value only: the value
of the `go_import_mapping@` token when the map is ranged over in insertion order, the
value of the `M` token when it is ranged over in the opposite order. -/
theorem parse_result_counterexample :
    (parseCommandLineParams (fun l => l) "Mfoo=1,go_import_mapping@foo=2").2 = none
    ∧ (parseCommandLineParams (fun l => l) "Mfoo=1,go_import_mapping@foo=2").1.importMap "foo"
        = some "2"
    ∧ (parseCommandLineParams (fun l => l) "Mfoo=1,go_import_mapping@foo=2").1.importMap "foo"
        ≠ some "1"
    ∧ (parseCommandLineParams List.reverse "Mfoo=1,go_import_mapping@foo=2").2 = none
    ∧ (parseCommandLineParams List.reverse "Mfoo=1,go_import_mapping@foo=2").1.importMap "foo"
        = some "1"
    ∧ (parseCommandLineParams List.reverse "Mfoo=1,go_import_mapping@foo=2").1.importMap "foo"
        ≠ some "2" := by
  decide

/-! ## Termination of the rendering -/

theorem renderFields_fields_ok (g : field → Except Fault String) (fs : List field)
    (js r : String) (h : renderFields g fs js = .ok r) : ∀ f ∈ fs, ∃ s, g f = .ok s := by
  induction fs generalizing js with
  | nil => simp
  | cons a fs ih =>
    rw [renderFields] at h
    cases ha : g a with
    | error e => simp [ha] at h
    | ok s =>
      simp only [ha] at h
      intro f hf
      rcases List.mem_cons.mp hf with rfl | hf
      · exact ⟨s, ha⟩
      · exact ih _ h f hf

theorem renderFields_all_ok (g : field → Except Fault String) (fs : List field) (js : String)
    (h : ∀ f ∈ fs, ∃ s, g f = .ok s) : ∃ r, renderFields g fs js = .ok r := by
  induction fs generalizing js with
  | nil => exact ⟨js, rfl⟩
  | cons a fs ih =>
    obtain ⟨s, hs⟩ := h a (List.mem_cons_self _ _)
    rw [renderFields, hs]
    exact ih _ (fun f hf => h f (List.mem_cons_of_mem _ hf))

theorem generateJsDocForMessage_ok_fields (fuel : Nat) (t : twirp) (m : message) (s : String)
    (h : generateJsDocForMessage fuel t (some m) = .ok s) :
    ∀ f ∈ m.Fields, ∃ s', generateJsDocForField fuel t f = .ok s' := by
  rw [generateJsDocForMessage_some] at h
  generalize hr : renderFields (generateJsDocForField fuel t) m.Fields _ = res at h
  cases res with
  | error e => cases h
  | ok r => exact renderFields_fields_ok _ _ _ _ hr

theorem generateJsDocForMessage_of_fields (fuel : Nat) (t : twirp) (m : message)
    (h : ∀ f ∈ m.Fields, ∃ s', generateJsDocForField fuel t f = .ok s') :
    ∃ s, generateJsDocForMessage fuel t (some m) = .ok s := by
  rw [generateJsDocForMessage_some]
  obtain ⟨r, hr⟩ := renderFields_all_ok _ m.Fields ("" ++ "\x7b\n") h
  rw [hr]
  exact ⟨_, rfl⟩

theorem messageValue_ok_rendered (f : field) (m : Option message)
    (rendered : Except Fault String) (v : String) (h : messageValue f m rendered = .ok v) :
    ∃ r, rendered = .ok r := by
  cases rendered with
  | error e => simp [messageValue] at h
  | ok r => exact ⟨r, rfl⟩

/-- A rendering that returns has rendered, with one unit of fuel less, every message its
message refers to. -/
theorem ok_step (fuel : Nat) (t : twirp) (a b : message) (s : String)
    (h : generateJsDocForMessage fuel t (some a) = .ok s) (hab : refersTo t a b) :
    ∃ k s', fuel = k + 1 ∧ generateJsDocForMessage k t (some b) = .ok s' := by
  obtain ⟨f, hf, n, hty, hn⟩ := hab
  obtain ⟨s', hs'⟩ := generateJsDocForMessage_ok_fields fuel t a s h f hf
  cases fuel with
  | zero =>
    exfalso
    have : generateJsDocForField 0 t f
        = generateJsDocForFieldWith (fun _ => .error Fault.outOfFuel) t f := rfl
    rw [this] at hs'
    unfold generateJsDocForFieldWith at hs'
    rw [fieldValue_message _ t f n hty] at hs'
    simp [messageValue] at hs'
  | succ k =>
    rw [generateJsDocForField_message k t f n hty, hn] at hs'
    cases hv : messageValue f (some b) (generateJsDocForMessage k t (some b)) with
    | error e => simp [hv] at hs'
    | ok v =>
      obtain ⟨r, hr⟩ := messageValue_ok_rendered _ _ _ _ hv
      exact ⟨k, r, rfl, hr⟩

/-- A rendering that returns meets no reference cycle. -/
theorem ok_acyclic (t : twirp) (fuel : Nat) :
    ∀ (x : message) (s : String), generateJsDocForMessage fuel t (some x) = .ok s →
      ∀ y, Relation.ReflTransGen (refersTo t) x y → ¬ Relation.TransGen (refersTo t) y y := by
  induction fuel with
  | zero =>
    intro x s h y hxy hyy
    have hsucc : ∃ z, refersTo t x z := by
      rcases Relation.ReflTransGen.cases_head hxy with rfl | ⟨c, hc, _⟩
      · obtain ⟨z, hz, _⟩ := Relation.TransGen.head'_iff.mp hyy
        exact ⟨z, hz⟩
      · exact ⟨c, hc⟩
    obtain ⟨z, hz⟩ := hsucc
    obtain ⟨k, _, hk, _⟩ := ok_step 0 t x z s h hz
    cases hk
  | succ n ih =>
    intro x s h y hxy hyy
    have hsucc : ∃ z, refersTo t x z ∧ Relation.ReflTransGen (refersTo t) z y := by
      rcases Relation.ReflTransGen.cases_head hxy with rfl | ⟨c, hc, hcy⟩
      · obtain ⟨z, hz, hzy⟩ := Relation.TransGen.head'_iff.mp hyy
        exact ⟨z, hz, hzy⟩
      · exact ⟨c, hc, hcy⟩
    obtain ⟨z, hz, hzy⟩ := hsucc
    obtain ⟨k, s', hk, hs'⟩ := ok_step (n + 1) t x z s h hz
    have hkn : k = n := by omega
    rw [hkn] at hs'
    exact ih z s' hs' y hzy hyy

theorem type_dot (f : field) (rest : List Char) (h : f.Type_.data = '.' :: rest) :
    f.Type_ = "." ++ (⟨rest⟩ : String) := by
  apply String.ext
  rw [h]
  rfl

/-- A field whose type name is not empty and does not start with a dot renders, whatever
the recursive call does. -/
theorem fieldWith_ok_not_dot (r : Option message → Except Fault String) (t : twirp)
    (f : field) (c : Char) (rest : List Char) (hd : f.Type_.data = c :: rest)
    (hc : c ≠ '.') : ∃ s, generateJsDocForFieldWith r t f = .ok s := by
  unfold generateJsDocForFieldWith fieldValue
  split_ifs <;> simp [hd, hc]

/-- The errors of a field rendering with fuel: an empty type, a nil dereference on an
absent message type, or the error of the nested rendering. -/
theorem field_error (fuel : Nat) (t : twirp) (f : field) (e : Fault)
    (h : generateJsDocForField (fuel + 1) t f = .error e) :
    panicsOn t f
      ∨ ∃ n b, f.Type_ = "." ++ n ∧ t.messages n = some b
          ∧ generateJsDocForMessage fuel t (some b) = .error e := by
  cases hd : f.Type_.data with
  | nil => exact Or.inl (Or.inl (String.ext hd))
  | cons c rest =>
    by_cases hc : c = '.'
    · subst hc
      have hty := type_dot f rest hd
      rw [generateJsDocForField_message fuel t f _ hty] at h
      cases hm : t.messages ⟨rest⟩ with
      | none =>
        left
        right
        refine ⟨_, hty, hm, ?_⟩
        rw [hm, generateJsDocForMessage_none] at h
        by_contra hcon
        push_neg at hcon
        simp [messageValue, isRepeated_false f hcon.1, hcon.2] at h
      | some b =>
        right
        refine ⟨_, b, hty, hm, ?_⟩
        rw [hm] at h
        cases hr : generateJsDocForMessage fuel t (some b) with
        | error e' =>
          rw [hr] at h
          simp only [messageValue] at h
          cases h
          rfl
        | ok v =>
          rw [hr] at h
          exfalso
          by_cases hrep : f.isRepeated = true
          · simp [messageValue, hrep] at h
          · by_cases hk : f.KeyType = ""
            · simp [messageValue, hrep, hk] at h
            · simp [messageValue, hrep, hk] at h
    · obtain ⟨s, hs⟩ := fieldWith_ok_not_dot (generateJsDocForMessage fuel t) t f c rest hd hc
      have : generateJsDocForField (fuel + 1) t f
          = generateJsDocForFieldWith (generateJsDocForMessage fuel t) t f := rfl
      rw [this, hs] at h
      cases h

/-- Without fuel a field fails on an empty type or on the nested call it cannot make. -/
theorem field_error_zero (t : twirp) (f : field) (e : Fault)
    (h : generateJsDocForField 0 t f = .error e) :
    f.Type_ = "" ∨ e = Fault.outOfFuel := by
  cases hd : f.Type_.data with
  | nil => exact Or.inl (String.ext hd)
  | cons c rest =>
    have hthis : generateJsDocForField 0 t f
        = generateJsDocForFieldWith (fun _ => .error Fault.outOfFuel) t f := rfl
    by_cases hc : c = '.'
    · subst hc
      have hty := type_dot f rest hd
      rw [hthis] at h
      unfold generateJsDocForFieldWith at h
      rw [fieldValue_message _ t f _ hty] at h
      simp only [messageValue] at h
      cases h
      exact Or.inr rfl
    · obtain ⟨s, hs⟩ := fieldWith_ok_not_dot (fun _ => .error Fault.outOfFuel) t f c rest hd hc
      rw [hthis, hs] at h
      cases h

theorem renderFields_error_source (g : field → Except Fault String) (fs : List field)
    (js : String) (e : Fault) (h : renderFields g fs js = .error e) :
    ∃ f ∈ fs, g f = .error e := by
  induction fs generalizing js with
  | nil => cases h
  | cons a fs ih =>
    rw [renderFields] at h
    cases ha : g a with
    | error e' =>
      rw [ha] at h
      cases h
      exact ⟨a, List.mem_cons_self _ _, ha⟩
    | ok s =>
      rw [ha] at h
      obtain ⟨f, hf, hfe⟩ := ih _ h
      exact ⟨f, List.mem_cons_of_mem _ hf, hfe⟩

theorem message_error_source (fuel : Nat) (t : twirp) (m : message) (e : Fault)
    (h : generateJsDocForMessage fuel t (some m) = .error e) :
    ∃ f ∈ m.Fields, generateJsDocForField fuel t f = .error e := by
  rw [generateJsDocForMessage_some] at h
  generalize hr : renderFields (generateJsDocForField fuel t) m.Fields _ = res at h
  cases res with
  | error e' =>
    cases h
    exact renderFields_error_source _ _ _ _ hr
  | ok r => cases h

/-- Running out of fuel means that a referenced message ran out of fuel one level down,
or that no fuel was left for a message-typed field. -/
theorem outOfFuel_step (fuel : Nat) (t : twirp) (a : message)
    (h : generateJsDocForMessage (fuel + 1) t (some a) = .error Fault.outOfFuel) :
    ∃ b, refersTo t a b ∧ generateJsDocForMessage fuel t (some b) = .error Fault.outOfFuel := by
  obtain ⟨f, hf, hfe⟩ := message_error_source _ t a _ h
  rcases field_error fuel t f _ hfe with hp | ⟨n, b, hty, hm, hb⟩
  · exfalso
    rcases hp with hp | ⟨n, hty, hm, _⟩
    · have hthis : generateJsDocForField (fuel + 1) t f
          = generateJsDocForFieldWith (generateJsDocForMessage fuel t) t f := rfl
      rw [hthis] at hfe
      unfold generateJsDocForFieldWith fieldValue at hfe
      simp [hp] at hfe
    · rw [generateJsDocForField_message fuel t f n hty, hm, generateJsDocForMessage_none] at hfe
      by_cases hrep : f.isRepeated = true
      · simp [messageValue, hrep] at hfe
      · by_cases hk : f.KeyType = ""
        · simp [messageValue, hrep, hk] at hfe
        · simp [messageValue, hrep, hk] at hfe
  · exact ⟨b, ⟨f, hf, n, hty, hm⟩, hb⟩

/-- With one unit of fuel more than the longest chain of references the rendering does
not run out of fuel. -/
theorem bounded_no_outOfFuel (t : twirp) (d : Nat) :
    ∀ m : message, (∀ l, List.Chain (refersTo t) m l → l.length ≤ d) →
      generateJsDocForMessage (d + 1) t (some m) ≠ .error Fault.outOfFuel := by
  induction d with
  | zero =>
    intro m hb h
    obtain ⟨b, hmb, _⟩ := outOfFuel_step 0 t m h
    have := hb [b] (List.Chain.cons hmb List.Chain.nil)
    simp at this
  | succ d ih =>
    intro m hb h
    obtain ⟨b, hmb, hbe⟩ := outOfFuel_step (d + 1) t m h
    refine ih b (fun l hl => ?_) hbe
    have := hb (b :: l) (List.Chain.cons hmb hl)
    simp at this
    omega

/-- When no field panics, the only error of a rendering is the lack of fuel. -/
theorem error_is_outOfFuel (t : twirp) (fuel : Nat) :
    ∀ (m : message) (e : Fault),
      (∀ x, Relation.ReflTransGen (refersTo t) m x → ∀ f ∈ x.Fields, ¬ panicsOn t f) →
      generateJsDocForMessage fuel t (some m) = .error e → e = Fault.outOfFuel := by
  induction fuel with
  | zero =>
    intro m e hsafe h
    obtain ⟨f, hf, hfe⟩ := message_error_source _ t m _ h
    rcases field_error_zero t f e hfe with hp | hp
    · exact absurd (Or.inl hp) (hsafe m Relation.ReflTransGen.refl f hf)
    · exact hp
  | succ k ih =>
    intro m e hsafe h
    obtain ⟨f, hf, hfe⟩ := message_error_source _ t m _ h
    rcases field_error k t f e hfe with hp | ⟨n, b, hty, hm, hb⟩
    · exact absurd hp (hsafe m Relation.ReflTransGen.refl f hf)
    · have hmb : refersTo t m b := ⟨f, hf, n, hty, hm⟩
      exact ih b e (fun x hx => hsafe x (Relation.ReflTransGen.head hmb hx)) hb

theorem chain_transGen (t : twirp) (a : message) (l : List message)
    (h : List.Chain (refersTo t) a l) : ∀ y ∈ l, Relation.TransGen (refersTo t) a y := by
  induction l generalizing a with
  | nil => simp
  | cons b l ih =>
    obtain ⟨hab, hl⟩ := List.chain_cons.mp h
    intro y hy
    rcases List.mem_cons.mp hy with rfl | hy
    · exact Relation.TransGen.single hab
    · exact Relation.TransGen.head hab (ih b hl y hy)

/-- A chain of references that starts where no cycle can be reached repeats no message. -/
theorem chain_nodup (t : twirp) (a : message) (l : List message)
    (h : List.Chain (refersTo t) a l)
    (hacyc : ∀ y, Relation.ReflTransGen (refersTo t) a y →
      ¬ Relation.TransGen (refersTo t) y y) : (a :: l).Nodup := by
  induction l generalizing a with
  | nil => simp
  | cons b l ih =>
    obtain ⟨hab, hl⟩ := List.chain_cons.mp h
    rw [List.nodup_cons]
    refine ⟨fun hmem => ?_, ih b hl (fun y hy => hacyc y (Relation.ReflTransGen.head hab hy))⟩
    exact hacyc a Relation.ReflTransGen.refl (chain_transGen t a (b :: l) h a hmem)

/-- In a finite index without a reachable cycle no chain of references is longer than the
number of names. -/
theorem chain_length_le (t : twirp) (names : List String)
    (hnames : ∀ n b, t.messages n = some b → n ∈ names) (m : message) (l : List message)
    (h : List.Chain (refersTo t) m l)
    (hacyc : ∀ y, Relation.ReflTransGen (refersTo t) m y →
      ¬ Relation.TransGen (refersTo t) y y) : l.length ≤ names.length := by
  have hnd : l.Nodup := (List.nodup_cons.mp (chain_nodup t m l h hacyc)).2
  have hsub : l ⊆ names.filterMap t.messages := by
    intro y hy
    have hin : ∃ n, t.messages n = some y := by
      induction l generalizing m with
      | nil => simp at hy
      | cons b l ih =>
        obtain ⟨hab, hl⟩ := List.chain_cons.mp h
        rcases List.mem_cons.mp hy with rfl | hy'
        · obtain ⟨f, _, n, _, hn⟩ := hab
          exact ⟨n, hn⟩
        · exact ih b hl (fun z hz => hacyc z (Relation.ReflTransGen.head hab hz))
            (List.nodup_cons.mp hnd).2 hy'
    obtain ⟨n, hn⟩ := hin
    exact List.mem_filterMap.mpr ⟨n, hnames n y hn, hn⟩
  calc l.length ≤ (names.filterMap t.messages).length :=
        (List.Nodup.subperm hnd hsub).length_le
    _ ≤ names.length := List.length_filterMap_le _ _

theorem dot_name_inj (a b : String) (h : "." ++ a = "." ++ b) : a = b := by
  have hd := congrArg String.data h
  simp only [String.data_append] at hd
  exact String.ext (List.append_cancel_left hd)

/-- Termination of the rendering away from its panics: (1) if the rendering of `m`
returns for some fuel, no message reachable from `m` through resolving message-typed
fields lies on a reference cycle; (2) with one
unit of fuel more than the longest chain of references from `m` the rendering does not run
out of fuel, and it returns when no reachable field panics; (3) in a finite index where no
reachable message lies on a cycle such a chain has at most as many links as the index has
names, so that some finite fuel suffices; (4) for a message with a field of its own type
no fuel gives a result. -/
theorem rendering_termination (t : twirp) (m : message) :
    (∀ fuel s, generateJsDocForMessage fuel t (some m) = .ok s →
      ∀ y, Relation.ReflTransGen (refersTo t) m y → ¬ Relation.TransGen (refersTo t) y y)
    ∧ (∀ d, (∀ l, List.Chain (refersTo t) m l → l.length ≤ d) →
        generateJsDocForMessage (d + 1) t (some m) ≠ .error Fault.outOfFuel
        ∧ ((∀ x, Relation.ReflTransGen (refersTo t) m x → ∀ f ∈ x.Fields, ¬ panicsOn t f) →
            ∃ s, generateJsDocForMessage (d + 1) t (some m) = .ok s))
    ∧ (∀ names : List String, (∀ n b, t.messages n = some b → n ∈ names) →
        (∀ y, Relation.ReflTransGen (refersTo t) m y →
          ¬ Relation.TransGen (refersTo t) y y) →
        ∃ fuel, fuel ≤ names.length + 1
          ∧ generateJsDocForMessage fuel t (some m) ≠ .error Fault.outOfFuel
          ∧ ((∀ x, Relation.ReflTransGen (refersTo t) m x →
                ∀ f ∈ x.Fields, ¬ panicsOn t f) →
              ∃ s, generateJsDocForMessage fuel t (some m) = .ok s))
    ∧ (refersTo t m m → ∀ fuel s, generateJsDocForMessage fuel t (some m) ≠ .ok s) := by
  have hbound : ∀ d, (∀ l, List.Chain (refersTo t) m l → l.length ≤ d) →
      generateJsDocForMessage (d + 1) t (some m) ≠ .error Fault.outOfFuel
      ∧ ((∀ x, Relation.ReflTransGen (refersTo t) m x → ∀ f ∈ x.Fields, ¬ panicsOn t f) →
          ∃ s, generateJsDocForMessage (d + 1) t (some m) = .ok s) := by
    intro d hd
    have hne := bounded_no_outOfFuel t d m hd
    refine ⟨hne, fun hsafe => ?_⟩
    cases hr : generateJsDocForMessage (d + 1) t (some m) with
    | ok s => exact ⟨s, rfl⟩
    | error e =>
      have := error_is_outOfFuel t (d + 1) m e hsafe hr
      rw [this] at hr
      exact absurd hr hne
  refine ⟨fun fuel s h => ok_acyclic t fuel m s h, hbound, ?_, ?_⟩
  · intro names hnames hacyc
    exact ⟨names.length + 1, le_refl _,
      hbound names.length (fun l hl => chain_length_le t names hnames m l hl hacyc)⟩
  · intro hself fuel s h
    exact ok_acyclic t fuel m s h m Relation.ReflTransGen.refl (Relation.TransGen.single hself)

/-- The message `Pair`, whose field is of the message type `Leaf`, renders with fuel at
most 3 in an index of two names; the message `Node` with the field `next` of type `Node`
never renders. -/
theorem rendering_termination_witness :
    (∃ fuel, fuel ≤ 3
      ∧ ∃ s, generateJsDocForMessage fuel exampleChainIndex
          (some ⟨"Pair",
            [⟨"first", ".pkg.Leaf", "", "", "", FieldDescriptorProto_Label.LABEL_OPTIONAL⟩],
            FieldDescriptorProto_Label.zero, ""⟩) = .ok s)
    ∧ ∀ fuel s, generateJsDocForMessage fuel exampleLoopIndex
        (some ⟨"Node",
          [⟨"next", ".pkg.Node", "", "", "", FieldDescriptorProto_Label.LABEL_OPTIONAL⟩],
          FieldDescriptorProto_Label.zero, ""⟩) ≠ .ok s := by
  have hleaf : ∀ b, ¬ refersTo exampleChainIndex
      ⟨"Leaf", [⟨"id", "TYPE_STRING", "", "", "", FieldDescriptorProto_Label.LABEL_OPTIONAL⟩],
        FieldDescriptorProto_Label.zero, ""⟩ b := by
    intro b h
    obtain ⟨f, hf, n, hty, _⟩ := h
    simp only [List.mem_singleton] at hf
    subst hf
    have hd := congrArg String.data hty
    simp [String.data_append] at hd
  have hpair : ∀ b, refersTo exampleChainIndex
      ⟨"Pair", [⟨"first", ".pkg.Leaf", "", "", "", FieldDescriptorProto_Label.LABEL_OPTIONAL⟩],
        FieldDescriptorProto_Label.zero, ""⟩ b →
      b = ⟨"Leaf", [⟨"id", "TYPE_STRING", "", "", "", FieldDescriptorProto_Label.LABEL_OPTIONAL⟩],
        FieldDescriptorProto_Label.zero, ""⟩ := by
    intro b h
    obtain ⟨f, hf, n, hty, hn⟩ := h
    simp only [List.mem_singleton] at hf
    subst hf
    have hn' : n = "pkg.Leaf" := (dot_name_inj "pkg.Leaf" n hty).symm
    subst hn'
    have hsome : exampleChainIndex.messages "pkg.Leaf"
        = some ⟨"Leaf",
            [⟨"id", "TYPE_STRING", "", "", "", FieldDescriptorProto_Label.LABEL_OPTIONAL⟩],
            FieldDescriptorProto_Label.zero, ""⟩ := by decide
    rw [hsome] at hn
    exact (Option.some.inj hn).symm
  have hreach : ∀ x, Relation.ReflTransGen (refersTo exampleChainIndex)
      ⟨"Pair", [⟨"first", ".pkg.Leaf", "", "", "", FieldDescriptorProto_Label.LABEL_OPTIONAL⟩],
        FieldDescriptorProto_Label.zero, ""⟩ x →
      x = ⟨"Pair", [⟨"first", ".pkg.Leaf", "", "", "", FieldDescriptorProto_Label.LABEL_OPTIONAL⟩],
          FieldDescriptorProto_Label.zero, ""⟩
      ∨ x = ⟨"Leaf", [⟨"id", "TYPE_STRING", "", "", "", FieldDescriptorProto_Label.LABEL_OPTIONAL⟩],
          FieldDescriptorProto_Label.zero, ""⟩ := by
    intro x hx
    rcases Relation.ReflTransGen.cases_head hx with h | ⟨c, hc, hcx⟩
    · exact Or.inl h.symm
    · have hc' := hpair c hc
      subst hc'
      rcases Relation.ReflTransGen.cases_head hcx with h | ⟨c', hc', _⟩
      · exact Or.inr h.symm
      · exact absurd hc' (hleaf c')
  have h1 := (rendering_termination exampleChainIndex
      ⟨"Pair", [⟨"first", ".pkg.Leaf", "", "", "", FieldDescriptorProto_Label.LABEL_OPTIONAL⟩],
        FieldDescriptorProto_Label.zero, ""⟩).2.2.1 ["pkg.Pair", "pkg.Leaf"]
    (fun n b h => by
      by_cases hn : n = "pkg.Leaf"
      · simp [hn]
      · by_cases hn2 : n = "pkg.Pair"
        · simp [hn2]
        · simp [exampleChainIndex, emptyGenerator, newGenerator, GoMap.set, GoMap.empty, hn,
            hn2] at h)
    (fun y hy hyy => by
      obtain ⟨z, hz, hzy⟩ := Relation.TransGen.head'_iff.mp hyy
      rcases hreach y hy with h | h
      · subst h
        have hz' := hpair z hz
        subst hz'
        rcases Relation.ReflTransGen.cases_head hzy with h | ⟨c, hc, _⟩
        · revert h
          decide
        · exact hleaf c hc
      · subst h
        exact hleaf z hz)
  have h2 := (rendering_termination exampleLoopIndex
      ⟨"Node",
        [⟨"next", ".pkg.Node", "", "", "", FieldDescriptorProto_Label.LABEL_OPTIONAL⟩],
        FieldDescriptorProto_Label.zero, ""⟩).2.2.2
    ⟨⟨"next", ".pkg.Node", "", "", "", FieldDescriptorProto_Label.LABEL_OPTIONAL⟩,
      List.mem_cons_self _ _, "pkg.Node", rfl, rfl⟩
  obtain ⟨fuel, hle, _, hok⟩ := h1
  refine ⟨⟨fuel, hle, hok (fun x hx f hf hp => ?_)⟩, h2⟩
  rcases hreach x hx with h | h
  · subst h
    simp only [List.mem_singleton] at hf
    subst hf
    rcases hp with hp | ⟨n, hty, hnone, _⟩
    · revert hp
      decide
    · have hn' : n = "pkg.Leaf" := (dot_name_inj "pkg.Leaf" n hty).symm
      subst hn'
      revert hnone
      decide
  · subst h
    simp only [List.mem_singleton] at hf
    subst hf
    rcases hp with hp | ⟨n, hty, _, _⟩
    · revert hp
      decide
    · have hd := congrArg String.data hty
      simp [String.data_append] at hd

/-- C18 (failing input): the message `Basket` is in the index and reaches no reference
cycle (its only message-typed field, a repeated one, names a type that is absent), yet no
fuel makes its rendering return: with every fuel that lets the rendering start it ends in
the nil dereference of that field.  The message `Trap` has a field of its own type, yet
its rendering stops for every fuel that lets it start: the same nil dereference, in its
first field, comes before the recursion. -/
theorem acyclic_message_never_renders :
    exampleBasketIndex.messages "pkg.Basket"
        = some ⟨"Basket",
            [⟨"items", ".pkg.Missing", "", "", "", FieldDescriptorProto_Label.LABEL_REPEATED⟩],
            FieldDescriptorProto_Label.zero, ""⟩
    ∧ (∀ y, Relation.ReflTransGen (refersTo exampleBasketIndex)
          ⟨"Basket",
            [⟨"items", ".pkg.Missing", "", "", "", FieldDescriptorProto_Label.LABEL_REPEATED⟩],
            FieldDescriptorProto_Label.zero, ""⟩ y →
        ¬ Relation.TransGen (refersTo exampleBasketIndex) y y)
    ∧ (∀ fuel, generateJsDocForMessage (fuel + 1) exampleBasketIndex
        (some ⟨"Basket",
          [⟨"items", ".pkg.Missing", "", "", "", FieldDescriptorProto_Label.LABEL_REPEATED⟩],
          FieldDescriptorProto_Label.zero, ""⟩) = .error Fault.nilDereference)
    ∧ (∀ fuel s, generateJsDocForMessage fuel exampleBasketIndex
        (some ⟨"Basket",
          [⟨"items", ".pkg.Missing", "", "", "", FieldDescriptorProto_Label.LABEL_REPEATED⟩],
          FieldDescriptorProto_Label.zero, ""⟩) ≠ .ok s)
    ∧ refersTo exampleTrapIndex
        ⟨"Trap",
          [⟨"items", ".pkg.Missing", "", "", "", FieldDescriptorProto_Label.LABEL_REPEATED⟩,
           ⟨"self", ".pkg.Trap", "", "", "", FieldDescriptorProto_Label.LABEL_OPTIONAL⟩],
          FieldDescriptorProto_Label.zero, ""⟩
        ⟨"Trap",
          [⟨"items", ".pkg.Missing", "", "", "", FieldDescriptorProto_Label.LABEL_REPEATED⟩,
           ⟨"self", ".pkg.Trap", "", "", "", FieldDescriptorProto_Label.LABEL_OPTIONAL⟩],
          FieldDescriptorProto_Label.zero, ""⟩
    ∧ ∀ fuel, generateJsDocForMessage (fuel + 1) exampleTrapIndex
        (some ⟨"Trap",
          [⟨"items", ".pkg.Missing", "", "", "", FieldDescriptorProto_Label.LABEL_REPEATED⟩,
           ⟨"self", ".pkg.Trap", "", "", "", FieldDescriptorProto_Label.LABEL_OPTIONAL⟩],
          FieldDescriptorProto_Label.zero, ""⟩) = .error Fault.nilDereference := by
  have hno : ∀ b, ¬ refersTo exampleBasketIndex
      ⟨"Basket",
        [⟨"items", ".pkg.Missing", "", "", "", FieldDescriptorProto_Label.LABEL_REPEATED⟩],
        FieldDescriptorProto_Label.zero, ""⟩ b := by
    intro b h
    obtain ⟨f, hf, n, hty, hn⟩ := h
    simp only [List.mem_singleton] at hf
    subst hf
    have hd := congrArg String.data hty
    simp only [String.data_append] at hd
    have hn' : n = "pkg.Missing" := by
      apply String.ext
      have : ('.' :: "pkg.Missing".data) = '.' :: n.data := hd
      exact (List.cons.inj this).2.symm
    subst hn'
    have hnone : exampleBasketIndex.messages "pkg.Missing" = none := by decide
    rw [hnone] at hn
    cases hn
  refine ⟨by decide, fun y hy hyy => ?_, fun fuel => ?_, fun fuel s h => ?_,
    ⟨⟨"self", ".pkg.Trap", "", "", "", FieldDescriptorProto_Label.LABEL_OPTIONAL⟩,
      by simp, "pkg.Trap", rfl, rfl⟩, fun fuel => ?_⟩
  · rcases Relation.ReflTransGen.cases_head hy with h | ⟨c, hc, _⟩
    · rw [← h] at hyy
      obtain ⟨z, hz, _⟩ := Relation.TransGen.head'_iff.mp hyy
      exact hno z hz
    · exact absurd hc (hno c)
  · have hf := (unresolved_message_field fuel exampleBasketIndex
      ⟨"items", ".pkg.Missing", "", "", "", FieldDescriptorProto_Label.LABEL_REPEATED⟩
      "pkg.Missing" rfl (by decide)).1 (Or.inl rfl)
    rw [generateJsDocForMessage_some]
    simp only [renderFields, hf]
  rotate_left
  · have hf := (unresolved_message_field fuel exampleTrapIndex
      ⟨"items", ".pkg.Missing", "", "", "", FieldDescriptorProto_Label.LABEL_REPEATED⟩
      "pkg.Missing" rfl (by decide)).1 (Or.inl rfl)
    rw [generateJsDocForMessage_some]
    simp only [renderFields, hf]
  · obtain ⟨s', hs'⟩ := generateJsDocForMessage_ok_fields fuel _ _ s h
      ⟨"items", ".pkg.Missing", "", "", "", FieldDescriptorProto_Label.LABEL_REPEATED⟩
      (List.mem_cons_self _ _)
    cases fuel with
    | zero =>
      have hz : generateJsDocForField 0 exampleBasketIndex
          ⟨"items", ".pkg.Missing", "", "", "", FieldDescriptorProto_Label.LABEL_REPEATED⟩
          = .error Fault.outOfFuel := by decide
      rw [hz] at hs'
      cases hs'
    | succ k =>
      have := (unresolved_message_field k exampleBasketIndex
        ⟨"items", ".pkg.Missing", "", "", "", FieldDescriptorProto_Label.LABEL_REPEATED⟩
        "pkg.Missing" rfl (by decide)).1 (Or.inl rfl)
      rw [this] at hs'
      cases hs'

/-! ## Response files and the output buffer -/

theorem scanService_output (t t' : twirp) (sd : ServiceDescriptor)
    (h : scanService t sd = .ok t') : t'.output = t.output := by
  have htypes := scanMethods_types sd sd.Methods _ t' h
  unfold scanService at h
  rw [scanMethods_ok sd sd.Methods _ htypes] at h
  cases h
  rfl

/-- One pass of the service loop appends a text to the output buffer and one file to the
response, whose content is the whole buffer. -/
theorem generateService_appends (ext : External) (fuel : Nat) (d : FileDescriptor)
    (st st' : twirp × List CodeGeneratorResponse_File) (sd : ServiceDescriptor)
    (h : generateService ext fuel d st sd = .ok st') :
    ∃ r, st'.1.output = st.1.output ++ r
      ∧ st'.2 = st.2 ++ [⟨stringsReplace d.GetName ".proto" ".md" 1, st.1.output ++ r⟩] := by
  unfold generateService at h
  cases hs : scanService st.1 sd with
  | error e => simp [hs] at h
  | ok t =>
    simp only [hs] at h
    cases hr : renderApis fuel { t with name := sd.Name } t.apis with
    | error e => simp [hr] at h
    | ok apis =>
      simp only [hr] at h
      cases h
      simp only [generateDoc_output]
      rw [scanService_output _ _ _ hs]
      exact ⟨_, rfl, rfl⟩

/-- The service loop emits one response file per service, all under the name derived
from the input file. -/
theorem generateServices_names (ext : External) (fuel : Nat) (d : FileDescriptor)
    (sds : List ServiceDescriptor) (st st' : twirp × List CodeGeneratorResponse_File)
    (h : generateServices ext fuel d st sds = .ok st') :
    st'.2.map (fun f => f.Name)
      = st.2.map (fun f => f.Name)
        ++ sds.map (fun _ => stringsReplace d.GetName ".proto" ".md" 1) := by
  induction sds generalizing st with
  | nil =>
    simp only [generateServices] at h
    cases h
    simp
  | cons sd sds ih =>
    rw [generateServices] at h
    cases hs : generateService ext fuel d st sd with
    | error e => simp [hs] at h
    | ok st1 =>
      simp only [hs] at h
      obtain ⟨r, _, hfiles⟩ := generateService_appends ext fuel d st st1 sd hs
      rw [ih st1 h, hfiles]
      simp

/-- The response holds one file per service of the request, in order. -/
theorem GenerateMarkdown_names (ext : External) (fuel : Nat) (ds : List FileDescriptor)
    (st st' : twirp × List CodeGeneratorResponse_File)
    (h : GenerateMarkdown ext fuel st ds = .ok st') :
    st'.2.map (fun f => f.Name)
      = st.2.map (fun f => f.Name)
        ++ (ds.map (fun d =>
            d.GetServices.map (fun _ => stringsReplace d.GetName ".proto" ".md" 1))).flatten := by
  induction ds generalizing st with
  | nil =>
    simp only [GenerateMarkdown] at h
    cases h
    simp
  | cons d ds ih =>
    rw [GenerateMarkdown] at h
    cases hs : generateServices ext fuel d st d.GetServices with
    | error e => simp [hs] at h
    | ok st1 =>
      simp only [hs] at h
      rw [ih st1 h, generateServices_names ext fuel d _ st st1 hs]
      simp

end ProtocGenMarkdown
